import Mathlib

/-!
# Verification of the cart pricing / checkout / pagination / role core

Shallow embedding of the server-side cart pricing engine, checkout
transition, order mutation endpoints, cursor pagination engine and role
resolver of the auto-parts backend (`backend/server.py`,
`backend/app/api/v1/endpoints/orders.py`,
`backend/app/api/v1/endpoints/products.py`,
`backend/app/core/security.py`, `backend/app/core/config.py`).

Monetary values are modelled as exact rationals; Python's `round(x, 2)`
is modelled by `round2`.  Document ids are modelled as naturals.  The
database state visible to one user is a `DB` record: the products
collection, that user's cart document (`carts.find_one({"user_id": ...})`)
and the orders collection.
-/

namespace Shop

/-- Monetary amounts (Python floats in the source, modelled exactly). -/
abbrev Money := ℚ

/-- Python's `round(x, 2)` on monetary values: round to a whole number of
cents.  (`round` on `ℚ` rounds halves up; every concrete value used in
the theorems below is away from a half-cent boundary, where all rounding
modes agree.) -/
def round2 (q : ℚ) : ℚ := (round (q * 100) : ℤ) / 100

/-- `SHIPPING_COST` from `app/core/config.py` (`server.py` uses the same
literal `150.0` inline). -/
def SHIPPING_COST : Money := 150

/-- A product document (the fields the claims touch).  `pid` models
`_id`. -/
structure Product where
  pid : Nat
  name : String
  price : Money
  stock_quantity : Int
  deriving DecidableEq

/-- `discount_details` of a cart line. -/
structure DiscountDetails where
  discount_type : String
  discount_value : ℚ
  discount_source_id : Option Nat
  deriving DecidableEq

/-- The `discount_details` dict written for an undiscounted add and by
`void_bundle_discount`: `{"discount_type": "none", "discount_value": 0}`. -/
def noDiscount : DiscountDetails := ⟨"none", 0, none⟩

/-- One element of `cart["items"]`.  The two price fields are `Option`al
because the source reads them with `item.get(key, product["price"])`;
`add_to_cart` always populates them. -/
structure CartItem where
  product_id : Nat
  quantity : Int
  original_unit_price : Option Money
  final_unit_price : Option Money
  discount_details : DiscountDetails
  bundle_group_id : Option Nat
  deriving DecidableEq

/-- A cart document (the `items` array; other fields are irrelevant to
the claims). -/
structure Cart where
  items : List CartItem
  deriving DecidableEq

/-- One element of an order's `items` array, as built by `create_order`. -/
structure OrderItem where
  product_id : Nat
  product_name : String
  quantity : Int
  price : Money
  original_unit_price : Money
  final_unit_price : Money
  discount_details : DiscountDetails
  bundle_group_id : Option Nat
  deriving DecidableEq

/-- An order document (the fields the claims touch). -/
structure Order where
  items : List OrderItem
  subtotal : Money
  discount : Money
  shipping_cost : Money
  total : Money
  status : String
  deriving DecidableEq

/-- Database state as seen by one user's requests. -/
structure DB where
  products : List Product
  cart : Option Cart
  orders : List Order
  deriving DecidableEq

/-- `db.products.find_one({"_id": pid})` (no `deleted_at` filter is
applied on these id lookups in the source). -/
def findProduct (ps : List Product) (pid : Nat) : Option Product :=
  ps.find? (fun p => p.pid == pid)

/-- `db.products.update_one({"_id": pid}, ...)`: apply `f` to the first
document matching the id (Mongo's `update_one` updates at most one). -/
def updateProductFirst (ps : List Product) (pid : Nat) (f : Product → Product) :
    List Product :=
  match ps with
  | [] => []
  | p :: rest =>
    if p.pid == pid then f p :: rest else p :: updateProductFirst rest pid f

/-- `update_product_price` (`server.py`): `$set {"price": ...}` on the
product document; the carts and orders collections are untouched. -/
def updateProductPrice (db : DB) (pid : Nat) (newPrice : Money) : DB :=
  { db with products :=
      updateProductFirst db.products pid (fun p => { p with price := newPrice }) }

/-- Request body of `POST /cart/add` (`CartItemAdd`). -/
structure CartItemAdd where
  product_id : Nat
  quantity : Int
  bundle_group_id : Option Nat
  bundle_discount_percentage : Option ℚ
  bundle_offer_id : Option Nat

/-- The `existing_idx` scan of `add_to_cart`: first line with the same
`product_id` and — when the request carries a `bundle_group_id` — the
same group, otherwise no group. -/
def findExistingIdx (items : List CartItem) (pid : Nat) (bgid : Option Nat) :
    Option Nat :=
  items.findIdx? (fun e =>
    e.product_id == pid &&
      match bgid with
      | some g => e.bundle_group_id == some g
      | none => e.bundle_group_id == none)

/-- `$inc {"items.<idx>.quantity": q}`. -/
def incQuantityAt : List CartItem → Nat → Int → List CartItem
  | [], _, _ => []
  | it :: rest, 0, q => { it with quantity := it.quantity + q } :: rest
  | it :: rest, n + 1, q => it :: incQuantityAt rest n q

/-- `add_to_cart` (`server.py` 1398–1473): freeze the product's current
price into the new cart line; a positive `bundle_discount_percentage`
discounts `final_unit_price` (rounded to 2 decimals — the rounding is
applied in every branch); merge with an existing line of the same
grouping key by incrementing its quantity.  Returns the new state and
the `cart_item` echoed in the response. -/
def addToCart (db : DB) (req : CartItemAdd) : Except String (DB × CartItem) :=
  match findProduct db.products req.product_id with
  | none => .error "Product not found"
  | some product =>
    let original_price := product.price
    let pct := req.bundle_discount_percentage.getD 0
    let final_price := if 0 < pct then original_price * (1 - pct / 100)
                       else original_price
    let dd := if 0 < pct then
                DiscountDetails.mk "bundle" pct req.bundle_offer_id
              else noDiscount
    let cart_item : CartItem :=
      { product_id := req.product_id
        quantity := req.quantity
        original_unit_price := some original_price
        final_unit_price := some (round2 final_price)
        discount_details := dd
        bundle_group_id := req.bundle_group_id }
    match db.cart with
    | none => .ok ({ db with cart := some ⟨[cart_item]⟩ }, cart_item)
    | some c =>
      match findExistingIdx c.items req.product_id req.bundle_group_id with
      | some idx =>
        .ok ({ db with cart := some ⟨incQuantityAt c.items idx req.quantity⟩ },
             cart_item)
      | none =>
        .ok ({ db with cart := some ⟨c.items ++ [cart_item]⟩ }, cart_item)

/-- The per-line body of `void_bundle_discount`: restore
`final_unit_price` from `original_unit_price`, clear the discount
metadata and the group membership on a line of the given group; leave
any other line alone. -/
def voidLine (gid : Nat) (item : CartItem) : CartItem :=
  if item.bundle_group_id == some gid then
    { item with
      final_unit_price :=
        match item.original_unit_price with
        | some o => some o
        | none => item.final_unit_price
      discount_details := noDiscount
      bundle_group_id := none }
  else item

/-- The `updated_items` loop of `void_bundle_discount`. -/
def voidBundleItems (items : List CartItem) (gid : Nat) : List CartItem :=
  items.map (voidLine gid)

/-- `void_bundle_discount` (`server.py` 1558–1581): a missing cart is
answered without touching the state; otherwise the rewritten items array
is written back. -/
def voidBundle (db : DB) (gid : Nat) : DB :=
  match db.cart with
  | none => db
  | some c => { db with cart := some ⟨voidBundleItems c.items gid⟩ }

/-- The order line `create_order` appends for a cart line `item` whose
product resolved to `product`: monetary fields from the cart line (live
price only as `get`-fallback), display fields from the product. -/
def mkOrderItem (item : CartItem) (product : Product) : OrderItem :=
  { product_id := item.product_id
    product_name := product.name
    quantity := item.quantity
    price := item.final_unit_price.getD product.price
    original_unit_price := item.original_unit_price.getD product.price
    final_unit_price := item.final_unit_price.getD product.price
    discount_details := item.discount_details
    bundle_group_id := item.bundle_group_id }

/-- The checkout loop of `create_order`
(`app/api/v1/endpoints/orders.py` 141–171): walk the cart lines, skip
lines whose product no longer resolves, copy the cart's frozen prices
into the order items, accumulate raw `subtotal` and `total_discount`,
and conditionally decrement stock (`$inc` through `update_one`) when the
product's current `stock_quantity` covers the quantity.  Each iteration
re-reads the product from the current collection state, hence the
threading of `ps`.  Returns (order items, subtotal, total_discount,
updated products). -/
def processLines : List Product → List CartItem →
    List OrderItem × ℚ × ℚ × List Product
  | ps, [] => ([], 0, 0, ps)
  | ps, item :: rest =>
    match findProduct ps item.product_id with
    | none => processLines ps rest
    | some product =>
      let original_price := item.original_unit_price.getD product.price
      let final_price := item.final_unit_price.getD product.price
      let quantity := item.quantity
      let oi : OrderItem := mkOrderItem item product
      let ps' := if product.stock_quantity ≥ quantity then
                   updateProductFirst ps item.product_id
                     (fun p => { p with
                       stock_quantity := p.stock_quantity - quantity })
                 else ps
      let r := processLines ps' rest
      (oi :: r.1, original_price * quantity + r.2.1,
       (original_price - final_price) * quantity + r.2.2.1, r.2.2.2)

/-- `create_order` (`app/api/v1/endpoints/orders.py` 127–218): reject a
missing or empty cart; otherwise run the checkout loop, compute
`total = subtotal - total_discount + SHIPPING_COST`, persist the order
(rounded money fields, status `"pending"`) and reset the cart's items to
`[]` (the cart document itself is kept). -/
def createOrder (db : DB) : Except String (Order × DB) :=
  match db.cart with
  | none => .error "Cart is empty"
  | some cart =>
    if cart.items.isEmpty then .error "Cart is empty"
    else
      let r := processLines db.products cart.items
      let subtotal := r.2.1
      let total_discount := r.2.2.1
      let total := subtotal - total_discount + SHIPPING_COST
      let order : Order :=
        { items := r.1
          subtotal := round2 subtotal
          discount := round2 total_discount
          shipping_cost := SHIPPING_COST
          total := round2 total
          status := "pending" }
      .ok (order,
        { db with
          products := r.2.2.2
          cart := some ⟨[]⟩
          orders := db.orders ++ [order] })

/-- `update_order_discount` (`app/api/v1/endpoints/orders.py` 260–286):
owner-only; a negative discount is rejected; otherwise the new total is
recomputed from the stored `subtotal` and `shipping_cost` as
`subtotal + shipping - discount` (no rounding is applied). -/
def updateOrderDiscount (role : String) (order : Order) (discount : ℚ) :
    Except String Order :=
  if role ≠ "owner" then .error "Only owner can modify discounts"
  else if discount < 0 then .error "Discount cannot be negative"
  else .ok { order with
             discount := discount
             total := order.subtotal + order.shipping_cost - discount }

/-- The `valid` status list of `update_order_status` (`server.py`
1795–1818). -/
def validStatuses : List String :=
  ["pending", "preparing", "shipped", "out_for_delivery", "delivered",
   "cancelled", "complete"]

/-- `update_order_status` (`server.py` 1795–1818): reject a status not
in `validStatuses`, otherwise `$set` it regardless of the prior
status. -/
def updateOrderStatus (order : Order) (status : String) :
    Except String Order :=
  if status ∈ validStatuses then .ok { order with status := status }
  else .error "Invalid status"

/-- `update_order_status` (`app/api/v1/endpoints/orders.py` 220–257):
admin-gated, but the status value itself is not validated at all. -/
def updateOrderStatusV1 (role : String) (order : Order) (status : String) :
    Except String Order :=
  if role ∈ ["owner", "partner", "admin"] then
    .ok { order with status := status }
  else .error "Access denied"

/-- One line of the cart view returned by `GET /cart`. -/
structure CartViewItem where
  product_id : Nat
  quantity : Int
  original_unit_price : Money
  final_unit_price : Money
  item_subtotal : Money
  item_discount : Money
  deriving DecidableEq

/-- The aggregation loop of `get_cart` (`server.py` 1360–1387): lines
whose product does not resolve are skipped; monetary fields come from
the cart line (with the live price only as `get`-fallback).  Returns
(view items, raw subtotal, raw total_discount). -/
def cartViewLines (ps : List Product) : List CartItem →
    List CartViewItem × ℚ × ℚ
  | [] => ([], 0, 0)
  | item :: rest =>
    match findProduct ps item.product_id with
    | none => cartViewLines ps rest
    | some product =>
      let original_price := item.original_unit_price.getD product.price
      let final_price := item.final_unit_price.getD product.price
      let quantity := item.quantity
      let r := cartViewLines ps rest
      (⟨item.product_id, quantity, original_price, final_price,
        final_price * quantity, (original_price - final_price) * quantity⟩
         :: r.1,
       original_price * quantity + r.2.1,
       (original_price - final_price) * quantity + r.2.2)

/-- The response of `GET /cart`. -/
structure CartView where
  items : List CartViewItem
  subtotal : Money
  total_discount : Money
  total : Money
  deriving DecidableEq

/-- `get_cart` (`server.py` 1340–1395): a user without a cart document
gets the empty view; otherwise the stored lines are aggregated.  The
handler performs no database write, which the returned (unchanged) `DB`
makes explicit. -/
def getCart (db : DB) : CartView × DB :=
  match db.cart with
  | none => ({ items := [], subtotal := 0, total_discount := 0, total := 0 }, db)
  | some c =>
    let r := cartViewLines db.products c.items
    ({ items := r.1
       subtotal := round2 r.2.1
       total_discount := round2 r.2.2
       total := round2 (r.2.1 - r.2.2) }, db)

/-- A document of one of the reference collections (`partners`,
`admins`, `subscribers`) as consulted by the role resolver. -/
structure Member where
  email : String
  deleted_at : Option Nat
  deriving DecidableEq

/-- `find_one({"email": e, "deleted_at": None})` as a membership test. -/
def activeMember (ms : List Member) (e : String) : Bool :=
  ms.any (fun m => m.email == e && m.deleted_at == none)

/-- `PRIMARY_OWNER_EMAIL` from `app/core/config.py`. -/
def PRIMARY_OWNER_EMAIL : String := "pc.2025.ai@gmail.com"

/-- The reference collections the role resolver consults. -/
structure RefDB where
  partners : List Member
  admins : List Member
  subscribers : List Member
  deriving DecidableEq

/-- A resolved user record, as far as the role resolver reads it. -/
structure UserDoc where
  email : String
  deriving DecidableEq

/-- `get_user_role` (`app/core/security.py` 48–74, identical in
`server.py` 312–338): priority owner, partner, admin, subscriber,
user; a null user is a guest. -/
def getUserRole (user : Option UserDoc) (ref : RefDB) : String :=
  match user with
  | none => "guest"
  | some u =>
    if u.email = PRIMARY_OWNER_EMAIL then "owner"
    else if activeMember ref.partners u.email then "partner"
    else if activeMember ref.admins u.email then "admin"
    else if activeMember ref.subscribers u.email then "subscriber"
    else "user"

/-! ## Cursor pagination engine

`get_orders` (`app/api/v1/endpoints/orders.py` 26–80) and
`get_products` (`app/api/v1/endpoints/products.py` 17–126) share the
same cursor core; it only reads a document's `created_at` and `_id`, so
a row is modelled by exactly those two fields (the base filter —
ownership, `deleted_at`, catalog facets — is applied to `rows` before
the engine runs).  `_id` strings are modelled as naturals, order-
isomorphically to Mongo's id comparison. -/

/-- A row of a paginated collection: its `_id` and `created_at`. -/
structure Row where
  rid : Nat
  created_at : Nat
  deriving DecidableEq

/-- Strict "(created_at, _id) lexicographically below": the compound
`$or` filter `created_at < b.created_at OR (created_at == b.created_at
AND _id < b._id)` is exactly `rowLt r b`, and its `prev` mirror is
`rowLt b r`. -/
def rowLt (a b : Row) : Bool :=
  a.created_at < b.created_at ||
    (a.created_at == b.created_at && a.rid < b.rid)

/-- The sort key order for `sort([("created_at", -1), ("_id", -1)])`:
`a` precedes `b` iff `a` is not strictly below `b`. -/
def rowDescLE (a b : Row) : Prop := ¬ rowLt a b = true

/-- The sort key order for direction `prev`
(`sort([("created_at", 1), ("_id", 1)])`). -/
def rowAscLE (a b : Row) : Prop := ¬ rowLt b a = true

instance : DecidableRel rowDescLE := fun _ _ => instDecidableNot
instance : DecidableRel rowAscLE := fun _ _ => instDecidableNot

/-- Mongo's descending sort on the compound key. -/
def sortDesc (rows : List Row) : List Row := List.insertionSort rowDescLE rows

/-- Mongo's ascending sort on the compound key. -/
def sortAsc (rows : List Row) : List Row := List.insertionSort rowAscLE rows

/-- The response shape of the paginated listings. -/
structure PageResult where
  items : List Row
  total : Nat
  next_cursor : Option Nat
  prev_cursor : Option Nat
  has_more : Bool
  deriving DecidableEq

/-- The shared listing engine: resolve the cursor by id (an
unresolvable cursor leaves the query unfiltered), filter strictly past
the boundary, sort by the compound key in the direction's order, fetch
`limit + 1`, trim the over-fetch into `has_more`, re-reverse `prev`
pages, and derive `next_cursor` / `prev_cursor` exactly as the handlers
do (`next_cursor` from the last returned item only when `has_more`;
`prev_cursor` from the first returned item only when a cursor was
given). -/
def listPage (rows : List Row) (cursor : Option Nat) (direction : String)
    (limit : Nat) : PageResult :=
  let filtered :=
    match cursor with
    | none => rows
    | some c =>
      match rows.find? (fun r => r.rid == c) with
      | none => rows
      | some b =>
        if direction == "next" then rows.filter (fun r => rowLt r b)
        else rows.filter (fun r => rowLt b r)
  let sorted := if direction == "next" then sortDesc filtered
                else sortAsc filtered
  let fetched := sorted.take (limit + 1)
  let has_more := decide (limit < fetched.length)
  let trimmed := if has_more then fetched.take limit else fetched
  let items := if direction == "next" then trimmed else trimmed.reverse
  { items := items
    total := rows.length
    next_cursor := if has_more then (items.getLast?).map (·.rid) else none
    prev_cursor := if cursor.isSome then (items.head?).map (·.rid) else none
    has_more := has_more }

/-- Forward traversal: follow `next_cursor` until it is `none`,
concatenating the returned pages (`fuel` bounds the number of requests;
any `fuel ≥ rows.length + 1` is enough). -/
def nextChain (rows : List Row) (cursor : Option Nat) (limit : Nat) :
    Nat → List Row
  | 0 => []
  | fuel + 1 =>
    let page := listPage rows cursor "next" limit
    match page.next_cursor with
    | none => page.items
    | some c => page.items ++ nextChain rows (some c) limit fuel

/-- Backward traversal: follow `prev_cursor` until a request returns no
items (whereupon `prev_cursor` is `none`), accumulating pages in
chronologically consistent order (each request's items precede the
previously collected ones). -/
def prevChain (rows : List Row) (cursor : Nat) (limit : Nat) :
    Nat → List Row
  | 0 => []
  | fuel + 1 =>
    let page := listPage rows (some cursor) "prev" limit
    match page.prev_cursor with
    | none => page.items
    | some c => prevChain rows c limit fuel ++ page.items

/-! ## Helper lemmas -/

/-- A rational that is a whole number of cents. -/
def isCents (q : ℚ) : Prop := ∃ n : ℤ, q = (n : ℚ) / 100

lemma isCents_round2 (q : ℚ) : isCents (round2 q) := ⟨round (q * 100), rfl⟩

lemma round2_of_isCents {q : ℚ} (h : isCents q) : round2 q = q := by
  obtain ⟨n, rfl⟩ := h
  have h100 : ((100 : ℚ)) ≠ 0 := by norm_num
  rw [round2, div_mul_cancel₀ _ h100, round_intCast]

lemma isCents_add {a b : ℚ} (ha : isCents a) (hb : isCents b) :
    isCents (a + b) := by
  obtain ⟨m, rfl⟩ := ha; obtain ⟨n, rfl⟩ := hb
  exact ⟨m + n, by push_cast; ring⟩

lemma isCents_sub {a b : ℚ} (ha : isCents a) (hb : isCents b) :
    isCents (a - b) := by
  obtain ⟨m, rfl⟩ := ha; obtain ⟨n, rfl⟩ := hb
  exact ⟨m - n, by push_cast; ring⟩

lemma isCents_mul_int {a : ℚ} (ha : isCents a) (k : ℤ) :
    isCents (a * (k : ℚ)) := by
  obtain ⟨m, rfl⟩ := ha
  exact ⟨m * k, by push_cast; ring⟩

lemma isCents_zero : isCents 0 := ⟨0, by norm_num⟩

lemma isCents_shipping : isCents SHIPPING_COST := ⟨15000, by norm_num [SHIPPING_COST]⟩

lemma isCents_sum {l : List ℚ} (h : ∀ x ∈ l, isCents x) : isCents l.sum := by
  induction l with
  | nil => simpa using isCents_zero
  | cons a l ih =>
    rw [List.sum_cons]
    exact isCents_add (h a (by simp)) (ih fun x hx => h x (by simp [hx]))

/-- `update_one` on an absent-or-present id: resolving another id is
unaffected, resolving the updated id sees `f` applied, provided `f`
keeps the document's id. -/
lemma findProduct_updateProductFirst (ps : List Product) (pid : Nat)
    (f : Product → Product) (hf : ∀ p, (f p).pid = p.pid) (q : Nat) :
    findProduct (updateProductFirst ps pid f) q =
      if q = pid then (findProduct ps q).map f else findProduct ps q := by
  induction ps with
  | nil => simp [findProduct, updateProductFirst]
  | cons p rest ih =>
    by_cases hp : p.pid = pid
    · simp only [updateProductFirst, hp, beq_self_eq_true, if_true]
      by_cases hq : q = pid
      · subst hq
        simp [findProduct, List.find?_cons, hf, hp]
      · have h1 : (p.pid == q) = false := by simp [hp, Ne.symm hq]
        have h2 : ((f p).pid == q) = false := by simp [hf, hp, Ne.symm hq]
        simp [findProduct, List.find?_cons, h1, h2, hq]
    · have hbeq : (p.pid == pid) = false := by simp [hp]
      simp only [updateProductFirst, hbeq, Bool.false_eq_true, if_false]
      by_cases hq : p.pid = q
      · have h1 : (p.pid == q) = true := by simp [hq]
        have h3 : q ≠ pid := by rw [← hq]; exact hp
        simp [findProduct, List.find?_cons, h1, h3]
      · have h1 : (p.pid == q) = false := by simp [hq]
        simp only [findProduct, List.find?_cons, h1]
        simpa [findProduct] using ih

lemma updateProductFirst_pid_preserved (ps : List Product) (pid : Nat)
    (f : Product → Product) (hf : ∀ p, (f p).pid = p.pid) :
    (updateProductFirst ps pid f).map Product.pid = ps.map Product.pid := by
  induction ps with
  | nil => rfl
  | cons p rest ih =>
    simp only [updateProductFirst]
    split
    · simp [hf]
    · simp [ih]

/-- Two single-document updates with id-preserving, pointwise-commuting
field editors commute. -/
lemma updateProductFirst_comm (ps : List Product) (pid q : Nat)
    (f g : Product → Product)
    (hf : ∀ p, (f p).pid = p.pid) (hg : ∀ p, (g p).pid = p.pid)
    (hfg : ∀ p, f (g p) = g (f p)) :
    updateProductFirst (updateProductFirst ps pid f) q g =
      updateProductFirst (updateProductFirst ps q g) pid f := by
  induction ps with
  | nil => rfl
  | cons p rest ih =>
    by_cases hp : p.pid = pid
    · by_cases hq : p.pid = q
      · have hpq : pid = q := by rw [← hp, hq]
        subst hpq
        simp [updateProductFirst, hp, hf, hg, hfg]
      · have hpq : pid ≠ q := by rw [← hp]; exact hq
        have h1 : (p.pid == q) = false := by simp [hq]
        have h2 : ((f p).pid == q) = false := by simp [hf, hq]
        simp [updateProductFirst, hp, h1, h2, hpq]
    · by_cases hq : p.pid = q
      · have hpq : q ≠ pid := by rw [← hq]; exact hp
        have h1 : (p.pid == pid) = false := by simp [hp]
        have h2 : ((g p).pid == pid) = false := by simp [hg, hp]
        simp [updateProductFirst, hq, h1, h2, hpq]
      · have h1 : (p.pid == pid) = false := by simp [hp]
        have h2 : (p.pid == q) = false := by simp [hq]
        simp [updateProductFirst, h1, h2, ih]

/-- What the checkout loop reads from a resolved product: its display
name and its price (only as a `get`-fallback).  Stock updates never
change this view. -/
def productView (ps : List Product) (q : Nat) : Option (String × Money) :=
  (findProduct ps q).map (fun p => (p.name, p.price))

/-- The frozen original unit price of a cart line as `create_order`
reads it (`item.get("original_unit_price", product["price"])`). -/
def lineOriginalPrice (ps : List Product) (it : CartItem) : Money :=
  it.original_unit_price.getD (((findProduct ps it.product_id).map Product.price).getD 0)

/-- The frozen final unit price of a cart line as `create_order` reads
it. -/
def lineFinalPrice (ps : List Product) (it : CartItem) : Money :=
  it.final_unit_price.getD (((findProduct ps it.product_id).map Product.price).getD 0)

lemma productView_stockUpdate (ps : List Product) (pid : Nat) (q : Int) :
    ∀ r, productView (updateProductFirst ps pid
        (fun p => { p with stock_quantity := p.stock_quantity - q })) r =
      productView ps r := by
  intro r
  unfold productView
  rw [findProduct_updateProductFirst ps pid
    (fun p => { p with stock_quantity := p.stock_quantity - q }) (fun _ => rfl) r]
  split
  · rw [Option.map_map]; rfl
  · rfl

/-- The items list and both raw accumulators of the checkout loop only
depend on the name/price view of the products state. -/
lemma processLines_view_eq :
    ∀ (items : List CartItem) (ps₁ ps₂ : List Product),
      (∀ q, productView ps₁ q = productView ps₂ q) →
      (processLines ps₁ items).1 = (processLines ps₂ items).1 ∧
      (processLines ps₁ items).2.1 = (processLines ps₂ items).2.1 ∧
      (processLines ps₁ items).2.2.1 = (processLines ps₂ items).2.2.1 := by
  intro items
  induction items with
  | nil => intro ps₁ ps₂ _; exact ⟨rfl, rfl, rfl⟩
  | cons it rest ih =>
    intro ps₁ ps₂ hv
    have hview := hv it.product_id
    unfold productView at hview
    cases h₁ : findProduct ps₁ it.product_id with
    | none =>
      cases h₂ : findProduct ps₂ it.product_id with
      | none =>
        simp only [processLines, h₁, h₂]
        exact ih ps₁ ps₂ hv
      | some p₂ => rw [h₁, h₂] at hview; simp at hview
    | some p₁ =>
      cases h₂ : findProduct ps₂ it.product_id with
      | none => rw [h₁, h₂] at hview; simp at hview
      | some p₂ =>
        rw [h₁, h₂] at hview
        simp only [Option.map_some', Option.some.injEq, Prod.mk.injEq] at hview
        obtain ⟨hname, hprice⟩ := hview
        simp only [processLines, h₁, h₂]
        have hv₁ : ∀ q, productView (if p₁.stock_quantity ≥ it.quantity then
            updateProductFirst ps₁ it.product_id
              (fun p => { p with stock_quantity := p.stock_quantity - it.quantity })
          else ps₁) q = productView ps₁ q := by
          intro q; split
          · exact productView_stockUpdate ps₁ it.product_id it.quantity q
          · rfl
        have hv₂ : ∀ q, productView (if p₂.stock_quantity ≥ it.quantity then
            updateProductFirst ps₂ it.product_id
              (fun p => { p with stock_quantity := p.stock_quantity - it.quantity })
          else ps₂) q = productView ps₂ q := by
          intro q; split
          · exact productView_stockUpdate ps₂ it.product_id it.quantity q
          · rfl
        have hrec := ih _ _ (fun q => (hv₁ q).trans ((hv q).trans (hv₂ q).symm))
        refine ⟨?_, ?_, ?_⟩
        · rw [hrec.1]
          simp [mkOrderItem, hname, hprice]
        · rw [hrec.2.1, hprice]
        · rw [hrec.2.2, hprice]

/-- The checkout loop never changes the name/price view of the products
collection (it only decrements stock). -/
lemma processLines_productView :
    ∀ (items : List CartItem) (ps : List Product) (q : Nat),
      productView ((processLines ps items).2.2.2) q = productView ps q := by
  intro items
  induction items with
  | nil => intro ps q; rfl
  | cons it rest ih =>
    intro ps q
    cases h : findProduct ps it.product_id with
    | none => simp only [processLines, h]; exact ih ps q
    | some p =>
      simp only [processLines, h]
      rw [ih]
      split
      · exact productView_stockUpdate ps it.product_id it.quantity q
      · rfl

/-- The order items are exactly the cart lines whose product still
resolves, priced from the cart line. -/
lemma processLines_items :
    ∀ (items : List CartItem) (ps : List Product),
      (processLines ps items).1 =
        items.filterMap (fun it =>
          (findProduct ps it.product_id).map (mkOrderItem it)) := by
  intro items
  induction items with
  | nil => intro ps; rfl
  | cons it rest ih =>
    intro ps
    cases h : findProduct ps it.product_id with
    | none => simp only [processLines, h, List.filterMap_cons, Option.map_none]; exact ih ps
    | some p =>
      simp only [processLines, h, List.filterMap_cons, Option.map_some']
      have hv : ∀ q, productView (if p.stock_quantity ≥ it.quantity then
          updateProductFirst ps it.product_id
            (fun r => { r with stock_quantity := r.stock_quantity - it.quantity })
        else ps) q = productView ps q := by
        intro q; split
        · exact productView_stockUpdate ps it.product_id it.quantity q
        · rfl
      rw [(processLines_view_eq rest _ ps hv).1, ih ps]

/-- The raw `subtotal` accumulator is the sum of frozen original price
times quantity over the surviving lines. -/
lemma processLines_subtotal :
    ∀ (items : List CartItem) (ps : List Product),
      (processLines ps items).2.1 =
        ((items.filter (fun it => (findProduct ps it.product_id).isSome)).map
          (fun it => lineOriginalPrice ps it * (it.quantity : ℚ))).sum := by
  intro items
  induction items with
  | nil => intro ps; rfl
  | cons it rest ih =>
    intro ps
    cases h : findProduct ps it.product_id with
    | none => simp only [processLines, h, List.filter_cons, Option.isSome_none,
        Bool.false_eq_true, if_false]; exact ih ps
    | some p =>
      simp only [processLines, h, List.filter_cons, Option.isSome_some, if_true,
        List.map_cons, List.sum_cons]
      have hv : ∀ q, productView (if p.stock_quantity ≥ it.quantity then
          updateProductFirst ps it.product_id
            (fun r => { r with stock_quantity := r.stock_quantity - it.quantity })
        else ps) q = productView ps q := by
        intro q; split
        · exact productView_stockUpdate ps it.product_id it.quantity q
        · rfl
      rw [(processLines_view_eq rest _ ps hv).2.1, ih ps]
      simp [lineOriginalPrice, h]

/-- The raw `total_discount` accumulator is the sum of frozen
per-unit discount times quantity over the surviving lines. -/
lemma processLines_discount :
    ∀ (items : List CartItem) (ps : List Product),
      (processLines ps items).2.2.1 =
        ((items.filter (fun it => (findProduct ps it.product_id).isSome)).map
          (fun it => (lineOriginalPrice ps it - lineFinalPrice ps it) *
            (it.quantity : ℚ))).sum := by
  intro items
  induction items with
  | nil => intro ps; rfl
  | cons it rest ih =>
    intro ps
    cases h : findProduct ps it.product_id with
    | none => simp only [processLines, h, List.filter_cons, Option.isSome_none,
        Bool.false_eq_true, if_false]; exact ih ps
    | some p =>
      simp only [processLines, h, List.filter_cons, Option.isSome_some, if_true,
        List.map_cons, List.sum_cons]
      have hv : ∀ q, productView (if p.stock_quantity ≥ it.quantity then
          updateProductFirst ps it.product_id
            (fun r => { r with stock_quantity := r.stock_quantity - it.quantity })
        else ps) q = productView ps q := by
        intro q; split
        · exact productView_stockUpdate ps it.product_id it.quantity q
        · rfl
      rw [(processLines_view_eq rest _ ps hv).2.2, ih ps]
      simp [lineOriginalPrice, lineFinalPrice, h]

lemma round2_zero : round2 0 = 0 := by norm_num [round2]

/-- A checkout over lines none of whose products resolve touches
nothing and accumulates nothing. -/
lemma processLines_all_missing :
    ∀ (items : List CartItem) (ps : List Product),
      (∀ it ∈ items, findProduct ps it.product_id = none) →
      processLines ps items = ([], 0, 0, ps) := by
  intro items
  induction items with
  | nil => intro ps _; rfl
  | cons it rest ih =>
    intro ps h
    have h1 := h it (by simp)
    simp only [processLines, h1]
    exact ih ps fun x hx => h x (by simp [hx])

/-- Lines whose product does not resolve contribute nothing to the cart
view. -/
lemma cartViewLines_filter (ps : List Product) :
    ∀ items : List CartItem,
      cartViewLines ps (items.filter
        (fun it => (findProduct ps it.product_id).isSome)) =
        cartViewLines ps items := by
  intro items
  induction items with
  | nil => rfl
  | cons it rest ih =>
    cases h : findProduct ps it.product_id with
    | none =>
      simp only [List.filter_cons, h, Option.isSome_none, Bool.false_eq_true,
        if_false]
      rw [ih]
      simp only [cartViewLines, h]
    | some p =>
      simp only [List.filter_cons, h, Option.isSome_some, if_true]
      simp only [cartViewLines, h, ih]

lemma cartViewLines_all_missing :
    ∀ (items : List CartItem) (ps : List Product),
      (∀ it ∈ items, findProduct ps it.product_id = none) →
      cartViewLines ps items = ([], 0, 0) := by
  intro items
  induction items with
  | nil => intro ps _; rfl
  | cons it rest ih =>
    intro ps h
    have h1 := h it (by simp)
    simp only [cartViewLines, h1]
    exact ih ps fun x hx => h x (by simp [hx])

/-- The order document written by a successful `create_order`, spelled
out. -/
def mkOrder (db : DB) (c : Cart) : Order :=
  { items := (processLines db.products c.items).1
    subtotal := round2 (processLines db.products c.items).2.1
    discount := round2 (processLines db.products c.items).2.2.1
    shipping_cost := SHIPPING_COST
    total := round2 ((processLines db.products c.items).2.1 -
      (processLines db.products c.items).2.2.1 + SHIPPING_COST)
    status := "pending" }

lemma createOrder_ok {db : DB} {c : Cart} (hc : db.cart = some c)
    (hne : c.items ≠ []) :
    createOrder db = .ok (mkOrder db c,
      { db with products := (processLines db.products c.items).2.2.2
                cart := some ⟨[]⟩
                orders := db.orders ++ [mkOrder db c] }) := by
  have hemp : c.items.isEmpty = false := by
    simpa [List.isEmpty_iff] using hne
  simp [createOrder, hc, hemp, mkOrder]

/-- For a cart whose lines all carry frozen prices, the checkout loop's
items and accumulators depend only on which products resolve and on
their names — in particular not on any live price. -/
lemma processLines_nameView_eq :
    ∀ (items : List CartItem) (ps₁ ps₂ : List Product),
      (∀ it ∈ items, it.original_unit_price.isSome = true ∧
        it.final_unit_price.isSome = true) →
      (∀ q, (findProduct ps₁ q).map Product.name =
        (findProduct ps₂ q).map Product.name) →
      (processLines ps₁ items).1 = (processLines ps₂ items).1 ∧
      (processLines ps₁ items).2.1 = (processLines ps₂ items).2.1 ∧
      (processLines ps₁ items).2.2.1 = (processLines ps₂ items).2.2.1 := by
  intro items
  induction items with
  | nil => intro ps₁ ps₂ _ _; exact ⟨rfl, rfl, rfl⟩
  | cons it rest ih =>
    intro ps₁ ps₂ hfrozen hv
    obtain ⟨ho, hf⟩ := hfrozen it (by simp)
    obtain ⟨vo, hvo⟩ := Option.isSome_iff_exists.mp ho
    obtain ⟨vf, hvf⟩ := Option.isSome_iff_exists.mp hf
    have hfrozen' : ∀ it ∈ rest, it.original_unit_price.isSome = true ∧
        it.final_unit_price.isSome = true :=
      fun x hx => hfrozen x (by simp [hx])
    have hview := hv it.product_id
    cases h₁ : findProduct ps₁ it.product_id with
    | none =>
      cases h₂ : findProduct ps₂ it.product_id with
      | none =>
        simp only [processLines, h₁, h₂]
        exact ih ps₁ ps₂ hfrozen' hv
      | some p₂ => rw [h₁, h₂] at hview; simp at hview
    | some p₁ =>
      cases h₂ : findProduct ps₂ it.product_id with
      | none => rw [h₁, h₂] at hview; simp at hview
      | some p₂ =>
        rw [h₁, h₂] at hview
        simp only [Option.map_some', Option.some.injEq] at hview
        simp only [processLines, h₁, h₂]
        have hnv₁ : ∀ q, (findProduct (if p₁.stock_quantity ≥ it.quantity then
            updateProductFirst ps₁ it.product_id
              (fun p => { p with stock_quantity := p.stock_quantity - it.quantity })
          else ps₁) q).map Product.name = (findProduct ps₁ q).map Product.name := by
          intro q; split
          · have := productView_stockUpdate ps₁ it.product_id it.quantity q
            unfold productView at this
            calc (findProduct _ q).map Product.name
                = ((findProduct _ q).map (fun p => (p.name, p.price))).map Prod.fst := by
                  rw [Option.map_map]; rfl
              _ = ((findProduct ps₁ q).map (fun p => (p.name, p.price))).map Prod.fst := by
                  rw [this]
              _ = (findProduct ps₁ q).map Product.name := by
                  rw [Option.map_map]; rfl
          · rfl
        have hnv₂ : ∀ q, (findProduct (if p₂.stock_quantity ≥ it.quantity then
            updateProductFirst ps₂ it.product_id
              (fun p => { p with stock_quantity := p.stock_quantity - it.quantity })
          else ps₂) q).map Product.name = (findProduct ps₂ q).map Product.name := by
          intro q; split
          · have := productView_stockUpdate ps₂ it.product_id it.quantity q
            unfold productView at this
            calc (findProduct _ q).map Product.name
                = ((findProduct _ q).map (fun p => (p.name, p.price))).map Prod.fst := by
                  rw [Option.map_map]; rfl
              _ = ((findProduct ps₂ q).map (fun p => (p.name, p.price))).map Prod.fst := by
                  rw [this]
              _ = (findProduct ps₂ q).map Product.name := by
                  rw [Option.map_map]; rfl
          · rfl
        have hrec := ih _ _ hfrozen'
          (fun q => (hnv₁ q).trans ((hv q).trans (hnv₂ q).symm))
        refine ⟨?_, ?_, ?_⟩
        · rw [hrec.1]
          simp [mkOrderItem, hvo, hvf, hview]
        · rw [hrec.2.1, hvo]; simp
        · rw [hrec.2.2, hvo, hvf]; simp

/-- `create_order` succeeds exactly on a present, non-empty cart — in
particular stock levels never fail a checkout. -/
lemma createOrder_isOk_iff (db : DB) :
    (∃ o db', createOrder db = .ok (o, db')) ↔
      ∃ c, db.cart = some c ∧ c.items ≠ [] := by
  constructor
  · rintro ⟨o, db', h⟩
    cases hc : db.cart with
    | none => simp [createOrder, hc] at h
    | some c =>
      refine ⟨c, rfl, ?_⟩
      intro hnil
      have hemp : c.items.isEmpty = true := by simp [hnil]
      rw [createOrder, hc] at h
      simp [hemp] at h
  · rintro ⟨c, hc, hne⟩
    exact ⟨_, _, createOrder_ok hc hne⟩

/-- A successful `add_to_cart` resolved the product and froze its
current price into the returned cart line. -/
lemma addToCart_item {db : DB} {req : CartItemAdd} {dbr : DB} {ci : CartItem}
    (h : addToCart db req = .ok (dbr, ci)) :
    ∃ product, findProduct db.products req.product_id = some product ∧
      ci.original_unit_price = some product.price := by
  cases hf : findProduct db.products req.product_id with
  | none => simp [addToCart, hf] at h
  | some product =>
    refine ⟨product, rfl, ?_⟩
    cases hc : db.cart with
    | none =>
      simp only [addToCart, hf, hc, Except.ok.injEq, Prod.mk.injEq] at h
      rw [← h.2]
    | some c =>
      cases hidx : findExistingIdx c.items req.product_id req.bundle_group_id with
      | none =>
        simp only [addToCart, hf, hc, hidx, Except.ok.injEq, Prod.mk.injEq] at h
        rw [← h.2]
      | some idx =>
        simp only [addToCart, hf, hc, hidx, Except.ok.injEq, Prod.mk.injEq] at h
        rw [← h.2]

/-! ## Claim theorems -/

/-- C1: a live price change (`update_product_price`) never rewrites any
existing cart line's frozen `original_unit_price`/`final_unit_price`
(the carts collection is untouched), an order created from that cart
after the change is priced identically to one created before it, and
the changed price is what a subsequent `add_to_cart` freezes. -/
theorem C1_price_freeze (db : DB) (pid : Nat) (p2 : Money)
    (hfrozen : ∀ c, db.cart = some c → ∀ it ∈ c.items,
      it.original_unit_price.isSome = true ∧
      it.final_unit_price.isSome = true) :
    (updateProductPrice db pid p2).cart = db.cart ∧
    (∀ o db₁ o' db₁',
      createOrder db = .ok (o, db₁) →
      createOrder (updateProductPrice db pid p2) = .ok (o', db₁') →
      o' = o) ∧
    (∀ req dbr ci, req.product_id = pid →
      addToCart (updateProductPrice db pid p2) req = .ok (dbr, ci) →
      ci.original_unit_price = some p2) := by
  have hnv : ∀ q, (findProduct (updateProductPrice db pid p2).products q).map
      Product.name = (findProduct db.products q).map Product.name := by
    intro q
    show (findProduct (updateProductFirst db.products pid _) q).map _ = _
    rw [findProduct_updateProductFirst db.products pid
      (fun p => { p with price := p2 }) (fun _ => rfl) q]
    split
    · rw [Option.map_map]; rfl
    · rfl
  refine ⟨rfl, ?_, ?_⟩
  · intro o db₁ o' db₁' h h'
    obtain ⟨c, hc, hne⟩ := (createOrder_isOk_iff db).mp ⟨o, db₁, h⟩
    have hc' : (updateProductPrice db pid p2).cart = some c := hc
    rw [createOrder_ok hc hne] at h
    rw [createOrder_ok hc' hne] at h'
    simp only [Except.ok.injEq, Prod.mk.injEq] at h h'
    rw [← h.1, ← h'.1]
    have hcomp := processLines_nameView_eq c.items
      (updateProductPrice db pid p2).products db.products
      (hfrozen c hc) hnv
    simp only [mkOrder, hcomp.1, hcomp.2.1, hcomp.2.2]
  · intro req dbr ci hpid hok
    subst hpid
    obtain ⟨product, hfind, hci⟩ := addToCart_item hok
    have hup := findProduct_updateProductFirst db.products req.product_id
      (fun p => { p with price := p2 }) (fun _ => rfl) req.product_id
    rw [if_pos rfl] at hup
    have hfind' : findProduct (updateProductFirst db.products req.product_id
        (fun p => { p with price := p2 })) req.product_id = some product := hfind
    rw [hfind'] at hup
    cases hbase : findProduct db.products req.product_id with
    | none => rw [hbase] at hup; simp at hup
    | some p0 =>
      rw [hbase] at hup
      simp only [Option.map_some', Option.some.injEq] at hup
      rw [hci, hup]

def C1wDB : DB :=
  { products := [⟨1, "bolt", 100, 5⟩]
    cart := some ⟨[⟨1, 2, some 100, some 100, noDiscount, none⟩]⟩
    orders := [] }

def C1wDBr : DB :=
  { products := [⟨1, "bolt", 120, 5⟩]
    cart := some ⟨[⟨1, 3, some 100, some 100, noDiscount, none⟩]⟩
    orders := [] }

def C1wItem : CartItem := ⟨1, 1, some 120, some 120, noDiscount, none⟩

/-- Witness for C1: raising product 1's price from 100 to 120 leaves
the cart untouched, and a fresh add freezes 120. -/
theorem C1_price_freeze_witness :
    (updateProductPrice C1wDB 1 120).cart = C1wDB.cart ∧
    C1wItem.original_unit_price = some 120 := by
  have h120 : round2 (120 : ℚ) = 120 := round2_of_isCents ⟨12000, by norm_num⟩
  have hok : addToCart (updateProductPrice C1wDB 1 120) ⟨1, 1, none, none, none⟩ =
      .ok (C1wDBr, C1wItem) := by
    simp [addToCart, updateProductPrice, updateProductFirst, findProduct,
      findExistingIdx, incQuantityAt, C1wDB, C1wDBr, C1wItem, h120, noDiscount]
  constructor
  · exact (C1_price_freeze C1wDB 1 120
      (by intro c hc; injection hc with h; subst h; decide)).1
  · exact (C1_price_freeze C1wDB 1 120
      (by intro c hc; injection hc with h; subst h; decide)).2.2
      ⟨1, 1, none, none, none⟩ C1wDBr C1wItem rfl hok

/-- C2: `create_order` fails on a missing or empty cart; on a non-empty
cart it skips lines whose product no longer resolves, accumulates
`subtotal` and `discount` from the cart's frozen prices over the
surviving lines, sets `total = round(subtotal - discount +
shipping_cost, 2)` with `shipping_cost` the constant `150.0`, persists
the order with status `"pending"`, and empties — but keeps — the cart
document.  The last conjunct pins down that the accumulators read the
cart's stored prices, never the live product price, whenever the lines
carry frozen prices (as every line written by `add_to_cart` does). -/
theorem C2_checkout_contract (db : DB) :
    (db.cart = none → createOrder db = .error "Cart is empty") ∧
    (∀ c, db.cart = some c → c.items = [] →
      createOrder db = .error "Cart is empty") ∧
    (∀ c, db.cart = some c → c.items ≠ [] →
      ∃ o db', createOrder db = .ok (o, db') ∧
        o.items = c.items.filterMap (fun it =>
          (findProduct db.products it.product_id).map (mkOrderItem it)) ∧
        o.subtotal = round2 (((c.items.filter (fun it =>
            (findProduct db.products it.product_id).isSome)).map
          (fun it => lineOriginalPrice db.products it * (it.quantity : ℚ))).sum) ∧
        o.discount = round2 (((c.items.filter (fun it =>
            (findProduct db.products it.product_id).isSome)).map
          (fun it => (lineOriginalPrice db.products it -
            lineFinalPrice db.products it) * (it.quantity : ℚ))).sum) ∧
        o.total = round2 ((((c.items.filter (fun it =>
            (findProduct db.products it.product_id).isSome)).map
          (fun it => lineOriginalPrice db.products it * (it.quantity : ℚ))).sum) -
          (((c.items.filter (fun it =>
            (findProduct db.products it.product_id).isSome)).map
          (fun it => (lineOriginalPrice db.products it -
            lineFinalPrice db.products it) * (it.quantity : ℚ))).sum) +
          SHIPPING_COST) ∧
        o.shipping_cost = SHIPPING_COST ∧
        o.status = "pending" ∧
        db'.cart = some ⟨[]⟩ ∧
        db'.orders = db.orders ++ [o]) ∧
    SHIPPING_COST = 150 ∧
    (∀ c, db.cart = some c →
      (∀ it ∈ c.items, it.original_unit_price.isSome = true ∧
        it.final_unit_price.isSome = true) →
      ∀ it ∈ c.items,
        lineOriginalPrice db.products it = it.original_unit_price.getD 0 ∧
        lineFinalPrice db.products it = it.final_unit_price.getD 0) := by
  refine ⟨?_, ?_, ?_, rfl, ?_⟩
  · intro h; simp [createOrder, h]
  · intro c hc hnil
    simp [createOrder, hc, hnil]
  · intro c hc hne
    refine ⟨mkOrder db c, _, createOrder_ok hc hne, ?_, ?_, ?_, ?_, rfl, rfl,
      rfl, rfl⟩
    · exact processLines_items c.items db.products
    · show round2 _ = _
      rw [processLines_subtotal c.items db.products]
    · show round2 _ = _
      rw [processLines_discount c.items db.products]
    · show round2 _ = _
      rw [processLines_subtotal c.items db.products,
        processLines_discount c.items db.products]
  · intro c _ hfrozen it hit
    obtain ⟨h1, h2⟩ := hfrozen it hit
    obtain ⟨o, ho⟩ := Option.isSome_iff_exists.mp h1
    obtain ⟨f, hf⟩ := Option.isSome_iff_exists.mp h2
    simp [lineOriginalPrice, lineFinalPrice, ho, hf]

/-- Witness for C2: a missing cart is rejected, and a concrete
non-empty cart checks out into a pending order and an emptied cart. -/
theorem C2_checkout_contract_witness :
    (createOrder { products := [], cart := none, orders := [] } =
      .error "Cart is empty") ∧
    ∃ o db', createOrder
        { products := [⟨1, "bolt", 100, 5⟩]
          cart := some ⟨[⟨1, 2, some 100, some 90, noDiscount, none⟩]⟩
          orders := [] } = .ok (o, db') ∧
      o.status = "pending" ∧ db'.cart = some ⟨[]⟩ := by
  constructor
  · exact (C2_checkout_contract _).1 rfl
  · obtain ⟨o, db', h1, _, _, _, _, _, h7, h8, _⟩ :=
      (C2_checkout_contract
        { products := [⟨1, "bolt", 100, 5⟩]
          cart := some ⟨[⟨1, 2, some 100, some 90, noDiscount, none⟩]⟩
          orders := [] }).2.2.1
        ⟨[⟨1, 2, some 100, some 90, noDiscount, none⟩]⟩ rfl (by simp)
    exact ⟨o, db', h1, h7, h8⟩

/-- C9: the emptiness check happens against the stored cart before any
product resolution, so a non-empty cart all of whose lines reference a
missing product still checks out: the order has no items, zero subtotal
and discount, a total of exactly the shipping cost, and the cart is
emptied. -/
theorem C9_checkout_all_products_missing (db : DB) (c : Cart)
    (h1 : db.cart = some c) (h2 : c.items ≠ [])
    (h3 : ∀ it ∈ c.items, findProduct db.products it.product_id = none) :
    ∃ o db', createOrder db = .ok (o, db') ∧
      o.items = [] ∧ o.subtotal = 0 ∧ o.discount = 0 ∧
      o.total = SHIPPING_COST ∧ db'.cart = some ⟨[]⟩ := by
  have hpl := processLines_all_missing c.items db.products h3
  refine ⟨mkOrder db c, _, createOrder_ok h1 h2, ?_, ?_, ?_, ?_, rfl⟩
  · simp [mkOrder, hpl]
  · simp [mkOrder, hpl, round2_zero]
  · simp [mkOrder, hpl, round2_zero]
  · show round2 _ = _
    simp only [hpl]
    norm_num [round2, SHIPPING_COST]

/-- Witness for C9 at a concrete state: one cart line referencing the
absent product 7. -/
theorem C9_checkout_all_products_missing_witness :
    ∃ o db', createOrder
        { products := [⟨1, "bolt", 100, 5⟩]
          cart := some ⟨[⟨7, 2, some 10, some 10, noDiscount, none⟩]⟩
          orders := [] } = .ok (o, db') ∧
      o.items = [] ∧ o.subtotal = 0 ∧ o.discount = 0 ∧
      o.total = SHIPPING_COST ∧ db'.cart = some ⟨[]⟩ :=
  C9_checkout_all_products_missing _ _ rfl (by simp) (by decide)

/-- C10: reading the cart never fails over absent references — no cart
document yields the all-zero empty view, the handler writes nothing
back, and stored lines whose product cannot be found are silently
omitted: the view of a cart equals the view of the same cart restricted
to its resolvable lines, and an all-missing cart views as empty with
zero totals. -/
theorem C10_get_cart_resilient (db : DB) :
    (getCart db).2 = db ∧
    (db.cart = none → (getCart db).1 = ⟨[], 0, 0, 0⟩) ∧
    (∀ c, db.cart = some c →
      (getCart db).1 = (getCart { db with cart := some ⟨c.items.filter
        (fun it => (findProduct db.products it.product_id).isSome)⟩ }).1) ∧
    (∀ c, db.cart = some c →
      (∀ it ∈ c.items, findProduct db.products it.product_id = none) →
      (getCart db).1 = ⟨[], 0, 0, 0⟩) := by
  refine ⟨?_, ?_, ?_, ?_⟩
  · cases h : db.cart <;> simp [getCart, h]
  · intro h; simp [getCart, h]
  · intro c hc
    simp only [getCart, hc]
    rw [cartViewLines_filter db.products c.items]
  · intro c hc hmiss
    have h0 := cartViewLines_all_missing c.items db.products hmiss
    simp [getCart, hc, h0, round2_zero]

/-- Witness for C10 at a concrete state with one resolvable and one
unresolvable cart line. -/
theorem C10_get_cart_resilient_witness :
    (getCart { products := [⟨1, "bolt", 100, 5⟩]
               cart := some ⟨[⟨1, 1, some 100, some 90, noDiscount, none⟩,
                              ⟨9, 3, some 4, some 4, noDiscount, none⟩]⟩
               orders := [] }).1 =
      (getCart { products := [⟨1, "bolt", 100, 5⟩]
                 cart := some ⟨[⟨1, 1, some 100, some 90, noDiscount, none⟩]⟩
                 orders := [] }).1 := by
  have h := (C10_get_cart_resilient
    { products := [⟨1, "bolt", 100, 5⟩]
      cart := some ⟨[⟨1, 1, some 100, some 90, noDiscount, none⟩,
                     ⟨9, 3, some 4, some 4, noDiscount, none⟩]⟩
      orders := [] }).2.2.1 _ rfl
  simpa using h

def C3db : DB :=
  { products := [⟨1, "bolt", 100, 5⟩]
    cart := some ⟨[⟨1, 1, some 100, some 100, noDiscount, none⟩]⟩
    orders := [] }

def C3order : Order :=
  { items := [⟨1, "bolt", 1, 100, 100, 100, noDiscount, none⟩]
    subtotal := 100, discount := 0, shipping_cost := 150
    total := 250, status := "pending" }

def C3db' : DB :=
  { products := [⟨1, "bolt", 100, 4⟩]
    cart := some ⟨[]⟩
    orders := [C3order] }

def C3order' : Order :=
  { items := [⟨1, "bolt", 1, 100, 100, 100, noDiscount, none⟩]
    subtotal := 100, discount := 1/200, shipping_cost := 150
    total := 49999/200, status := "pending" }

/-- Counterexample to C3: the owner discount adjustment stores
`total = subtotal + shipping_cost - discount` without re-rounding, so
adjusting a reachable order (subtotal 100, shipping 150) by the
sub-cent discount `0.005` stores `total = 249.995`, while
`round(subtotal - discount + shipping_cost, 2) = 250`. -/
theorem C3_total_invariant_counterexample :
    createOrder C3db = .ok (C3order, C3db') ∧
    updateOrderDiscount "owner" C3order (1/200) = .ok C3order' ∧
    C3order'.total ≠
      round2 (C3order'.subtotal - C3order'.discount + C3order'.shipping_cost) := by
  have e100 : round2 (100 : ℚ) = 100 := round2_of_isCents ⟨10000, by norm_num⟩
  have e250 : round2 (100 - 0 + SHIPPING_COST : ℚ) = 250 := by
    have hv : (100 - 0 + SHIPPING_COST : ℚ) = 250 := by norm_num [SHIPPING_COST]
    rw [hv]; exact round2_of_isCents ⟨25000, by norm_num⟩
  have e250b : round2 (100 + 150 : ℚ) = 250 := by
    have hv : (100 + 150 : ℚ) = 250 := by norm_num
    rw [hv]; exact round2_of_isCents ⟨25000, by norm_num⟩
  refine ⟨?_, ?_, ?_⟩
  · have h := createOrder_ok (show C3db.cart =
      some ⟨[⟨1, 1, some 100, some 100, noDiscount, none⟩]⟩ from rfl) (by simp)
    rw [h]
    have hp : processLines C3db.products
        [⟨1, 1, some 100, some 100, noDiscount, none⟩] =
        ([⟨1, "bolt", 1, 100, 100, 100, noDiscount, none⟩], 100, 0,
          [⟨1, "bolt", 100, 4⟩]) := by
      norm_num [processLines, findProduct, C3db, mkOrderItem,
        updateProductFirst, List.find?]
    simp only [mkOrder, hp]
    simp [C3order, C3db', e100, e250, e250b, round2_zero, C3db, SHIPPING_COST]
  · simp only [updateOrderDiscount, C3order, C3order']
    norm_num
  · have hv : (C3order'.subtotal - C3order'.discount + C3order'.shipping_cost) =
        (49999 : ℚ)/200 := by norm_num [C3order']
    rw [hv]
    have hr : round2 ((49999 : ℚ)/200) = 250 := by
      unfold round2
      norm_num [round_eq, Int.floor_eq_iff]
    rw [hr]
    norm_num [C3order']

/-- C3 as amended: after creation, `total` equals the exact value
`subtotal - discount + shipping_cost` (and hence its own rounding)
whenever the cart's line prices are whole-cent amounts; the owner-only
adjustment recomputes `total = subtotal + shipping_cost - discount`
without re-rounding — so the rounded invariant holds after an
adjustment exactly for whole-cent inputs — and it rejects a negative
discount and a non-owner caller. -/
theorem C3_total_invariant_amended (o : Order) (role : String) (d : ℚ) :
    (∀ db db₁ c, createOrder db = .ok (o, db₁) → db.cart = some c →
      (∀ it ∈ c.items, isCents (lineOriginalPrice db.products it) ∧
        isCents (lineFinalPrice db.products it)) →
      o.total = o.subtotal - o.discount + o.shipping_cost ∧
      o.total = round2 (o.subtotal - o.discount + o.shipping_cost)) ∧
    (∀ o', updateOrderDiscount role o d = .ok o' →
      role = "owner" ∧ 0 ≤ d ∧ o'.subtotal = o.subtotal ∧ o'.discount = d ∧
      o'.shipping_cost = o.shipping_cost ∧
      o'.total = o.subtotal + o.shipping_cost - d ∧
      (isCents o.subtotal → isCents o.shipping_cost → isCents d →
        o'.total = round2 (o'.subtotal - o'.discount + o'.shipping_cost))) ∧
    (d < 0 → updateOrderDiscount "owner" o d =
      .error "Discount cannot be negative") ∧
    (role ≠ "owner" → updateOrderDiscount role o d =
      .error "Only owner can modify discounts") := by
  refine ⟨?_, ?_, ?_, ?_⟩
  · intro db db₁ c h hc hcents
    have hne : c.items ≠ [] := by
      obtain ⟨c₂, hc₂, hne₂⟩ := (createOrder_isOk_iff db).mp ⟨o, db₁, h⟩
      rw [hc] at hc₂
      injection hc₂ with h₂
      rw [h₂]; exact hne₂
    rw [createOrder_ok hc hne] at h
    simp only [Except.ok.injEq, Prod.mk.injEq] at h
    have ho : o = mkOrder db c := h.1.symm
    have hS : isCents (processLines db.products c.items).2.1 := by
      rw [processLines_subtotal]
      apply isCents_sum
      intro x hx
      obtain ⟨it, hit, rfl⟩ := List.mem_map.mp hx
      exact isCents_mul_int (hcents it (List.mem_of_mem_filter hit)).1 it.quantity
    have hD : isCents (processLines db.products c.items).2.2.1 := by
      rw [processLines_discount]
      apply isCents_sum
      intro x hx
      obtain ⟨it, hit, rfl⟩ := List.mem_map.mp hx
      exact isCents_mul_int
        (isCents_sub (hcents it (List.mem_of_mem_filter hit)).1
          (hcents it (List.mem_of_mem_filter hit)).2) it.quantity
    have hT : isCents ((processLines db.products c.items).2.1 -
        (processLines db.products c.items).2.2.1 + SHIPPING_COST) :=
      isCents_add (isCents_sub hS hD) isCents_shipping
    subst ho
    constructor
    · show round2 _ = round2 _ - round2 _ + _
      rw [round2_of_isCents hS, round2_of_isCents hD, round2_of_isCents hT]
      rfl
    · show round2 _ = round2 (round2 _ - round2 _ + _)
      rw [round2_of_isCents hS, round2_of_isCents hD]
      rfl
  · intro o' h
    by_cases hrole : role = "owner"
    · by_cases hd : d < 0
      · rw [updateOrderDiscount, if_neg (by simp [hrole]), if_pos hd] at h
        cases h
      · rw [updateOrderDiscount, if_neg (by simp [hrole]), if_neg hd] at h
        injection h with h
        subst h
        refine ⟨hrole, not_lt.mp hd, rfl, rfl, rfl, rfl, ?_⟩
        intro hcS hcSh hcd
        show o.subtotal + o.shipping_cost - d = round2 (o.subtotal - d + o.shipping_cost)
        rw [round2_of_isCents (isCents_add (isCents_sub hcS hcd) hcSh)]
        ring
    · rw [updateOrderDiscount, if_pos hrole] at h
      cases h
  · intro hd
    rw [updateOrderDiscount, if_neg (by simp), if_pos hd]
  · intro hrole
    rw [updateOrderDiscount, if_pos hrole]

def C3wOrder : Order := ⟨[], 100, 0, 150, 250, "pending"⟩
def C3wOrder' : Order := ⟨[], 100, 5, 150, 245, "pending"⟩

/-- Witness for the amended C3: a whole-cent adjustment (discount 5 on
a subtotal-100 order) does satisfy the rounded invariant. -/
theorem C3_total_invariant_amended_witness :
    C3wOrder'.total = round2 (C3wOrder'.subtotal - C3wOrder'.discount +
      C3wOrder'.shipping_cost) := by
  have heq : updateOrderDiscount "owner" C3wOrder 5 = .ok C3wOrder' := by
    simp only [updateOrderDiscount, C3wOrder, C3wOrder']
    norm_num
  have h := (C3_total_invariant_amended C3wOrder "owner" 5).2.1 C3wOrder' heq
  exact h.2.2.2.2.2.2 ⟨10000, by norm_num [C3wOrder]⟩
    ⟨15000, by norm_num [C3wOrder]⟩ ⟨500, by norm_num⟩

/-- The live stock of a product id. -/
def stockOf (ps : List Product) (q : Nat) : Option Int :=
  (findProduct ps q).map Product.stock_quantity

/-- How checkout may change one product document: the id is kept and
the document is either untouched or left with non-negative stock. -/
def stockRel (p p' : Product) : Prop :=
  p'.pid = p.pid ∧ (p' = p ∨ 0 ≤ p'.stock_quantity)

lemma forall₂_stockRel_refl (ps : List Product) :
    List.Forall₂ stockRel ps ps := by
  induction ps with
  | nil => exact List.Forall₂.nil
  | cons p rest ih => exact List.Forall₂.cons ⟨rfl, Or.inl rfl⟩ ih

lemma forall₂_stockRel_updateFirst {ps ps₁ : List Product}
    (h : List.Forall₂ stockRel ps ps₁) (pid : Nat) (q : Int)
    (hg : ∀ p₁, findProduct ps₁ pid = some p₁ → q ≤ p₁.stock_quantity) :
    List.Forall₂ stockRel ps (updateProductFirst ps₁ pid
      (fun p => { p with stock_quantity := p.stock_quantity - q })) := by
  induction h with
  | nil => exact List.Forall₂.nil
  | @cons a b l₁ l₂ hR hRest ih =>
    show List.Forall₂ stockRel (a :: l₁) (updateProductFirst (b :: l₂) pid _)
    by_cases hb : (b.pid == pid) = true
    · have hfind : findProduct (b :: l₂) pid = some b := by
        simp [findProduct, List.find?_cons, hb]
      simp only [updateProductFirst, hb, if_true]
      refine List.Forall₂.cons ⟨hR.1, Or.inr ?_⟩ hRest
      show (0 : ℤ) ≤ b.stock_quantity - q
      have := hg b hfind
      omega
    · simp only [updateProductFirst, hb, Bool.false_eq_true, if_false]
      refine List.Forall₂.cons hR (ih ?_)
      intro p₁ hp₁
      refine hg p₁ ?_
      simpa [findProduct, List.find?_cons, hb] using hp₁

lemma processLines_stock_forall₂ :
    ∀ (items : List CartItem) (ps₀ ps : List Product),
      List.Forall₂ stockRel ps₀ ps →
      List.Forall₂ stockRel ps₀ (processLines ps items).2.2.2 := by
  intro items
  induction items with
  | nil => intro ps₀ ps h; exact h
  | cons it rest ih =>
    intro ps₀ ps h
    cases hfind : findProduct ps it.product_id with
    | none => simp only [processLines, hfind]; exact ih ps₀ ps h
    | some p =>
      simp only [processLines, hfind]
      by_cases hguard : p.stock_quantity ≥ it.quantity
      · rw [if_pos hguard]
        refine ih ps₀ _ (forall₂_stockRel_updateFirst h it.product_id it.quantity ?_)
        intro p₁ hp₁
        rw [hfind] at hp₁
        injection hp₁ with hp₁
        rw [← hp₁]
        omega
      · rw [if_neg hguard]
        exact ih ps₀ ps h

/-- C4: per line, stock is decremented by the line's quantity exactly
when the product exists and its current stock covers the quantity
(otherwise the stock — and every other product — is untouched); after a
successful checkout every product document is either untouched or has
non-negative stock, so checkout never drives a stock below zero; and
checkout success never depends on stock levels — it depends only on the
cart being present and non-empty. -/
theorem C4_conditional_stock_decrement (db : DB) :
    (∀ (ps : List Product) (it : CartItem),
      stockOf ((processLines ps [it]).2.2.2) it.product_id =
        (stockOf ps it.product_id).map
          (fun s => if it.quantity ≤ s then s - it.quantity else s) ∧
      ∀ q, q ≠ it.product_id →
        stockOf ((processLines ps [it]).2.2.2) q = stockOf ps q) ∧
    (∀ o db', createOrder db = .ok (o, db') →
      List.Forall₂ stockRel db.products db'.products) ∧
    ((∃ o db', createOrder db = .ok (o, db')) ↔
      ∃ c, db.cart = some c ∧ c.items ≠ []) := by
  refine ⟨?_, ?_, createOrder_isOk_iff db⟩
  · intro ps it
    cases hfind : findProduct ps it.product_id with
    | none =>
      constructor
      · simp [processLines, hfind, stockOf]
      · intro q _; simp [processLines, hfind]
    | some p =>
      constructor
      · by_cases hguard : p.stock_quantity ≥ it.quantity
        · simp only [processLines, hfind, if_pos hguard, stockOf]
          rw [findProduct_updateProductFirst ps it.product_id
            (fun r => { r with stock_quantity := r.stock_quantity - it.quantity })
            (fun _ => rfl) it.product_id, if_pos rfl, hfind]
          simp only [Option.map_some', Option.map_map]
          rw [if_pos (by omega : it.quantity ≤ p.stock_quantity)]
        · simp only [processLines, hfind, if_neg hguard, stockOf, Option.map_some']
      · intro q hq
        by_cases hguard : p.stock_quantity ≥ it.quantity
        · simp only [processLines, hfind, if_pos hguard, stockOf]
          rw [findProduct_updateProductFirst ps it.product_id
            (fun r => { r with stock_quantity := r.stock_quantity - it.quantity })
            (fun _ => rfl) q, if_neg hq]
        · simp only [processLines, hfind, if_neg hguard]
  · intro o db' h
    obtain ⟨c, hc, hne⟩ := (createOrder_isOk_iff db).mp ⟨o, db', h⟩
    rw [createOrder_ok hc hne] at h
    simp only [Except.ok.injEq, Prod.mk.injEq] at h
    rw [← h.2]
    exact processLines_stock_forall₂ c.items db.products db.products
      (forall₂_stockRel_refl db.products)

/-- Witness for C4: stock 5, quantity 2 decrements to 3; a second line
of quantity 9 against the remaining 3 is skipped. -/
theorem C4_conditional_stock_decrement_witness :
    stockOf ((processLines [⟨1, "bolt", 100, 5⟩]
      [⟨1, 2, some 100, some 100, noDiscount, none⟩]).2.2.2) 1 = some 3 ∧
    stockOf ((processLines [⟨1, "bolt", 100, 3⟩]
      [⟨1, 9, some 100, some 100, noDiscount, none⟩]).2.2.2) 1 = some 3 := by
  constructor
  · rw [((C4_conditional_stock_decrement ⟨[], none, []⟩).1 [⟨1, "bolt", 100, 5⟩]
      ⟨1, 2, some 100, some 100, noDiscount, none⟩).1]
    decide
  · rw [((C4_conditional_stock_decrement ⟨[], none, []⟩).1 [⟨1, "bolt", 100, 3⟩]
      ⟨1, 9, some 100, some 100, noDiscount, none⟩).1]
    decide

def C6ref : RefDB :=
  { partners := [⟨PRIMARY_OWNER_EMAIL, none⟩]
    admins := [⟨PRIMARY_OWNER_EMAIL, none⟩]
    subscribers := [] }

/-- Counterexample to C6: an email present (not soft-deleted) in both
`Partners` and `Admins` does not always resolve to `partner` — when it
is the configured primary-owner email it resolves to `owner`. -/
theorem C6_role_priority_counterexample :
    activeMember C6ref.partners PRIMARY_OWNER_EMAIL = true ∧
    activeMember C6ref.admins PRIMARY_OWNER_EMAIL = true ∧
    getUserRole (some ⟨PRIMARY_OWNER_EMAIL⟩) C6ref = "owner" ∧
    getUserRole (some ⟨PRIMARY_OWNER_EMAIL⟩) C6ref ≠ "partner" := by
  refine ⟨by decide, by decide, ?_, ?_⟩
  · simp [getUserRole]
  · simp [getUserRole]

/-- C6 as amended: role resolution is total and deterministic into the
six-role set, with priority owner, partner, admin, subscriber, user and
guest for a null identity; an email other than the primary-owner email
that is active in `Partners` resolves to `partner` regardless of
`Admins` membership, and no email active in `Partners` ever resolves to
`admin` (the primary-owner email itself resolves to `owner`). -/
theorem C6_role_priority_amended (user : Option UserDoc) (ref : RefDB) :
    getUserRole user ref ∈
      ["owner", "partner", "admin", "subscriber", "user", "guest"] ∧
    (user = none → getUserRole user ref = "guest") ∧
    (∀ u, user = some u → u.email = PRIMARY_OWNER_EMAIL →
      getUserRole user ref = "owner") ∧
    (∀ u, user = some u → u.email ≠ PRIMARY_OWNER_EMAIL →
      activeMember ref.partners u.email = true →
      getUserRole user ref = "partner") ∧
    (∀ u, user = some u → activeMember ref.partners u.email = true →
      getUserRole user ref ≠ "admin") ∧
    (∀ u, user = some u → u.email ≠ PRIMARY_OWNER_EMAIL →
      activeMember ref.partners u.email = false →
      activeMember ref.admins u.email = true →
      getUserRole user ref = "admin") ∧
    (∀ u, user = some u → u.email ≠ PRIMARY_OWNER_EMAIL →
      activeMember ref.partners u.email = false →
      activeMember ref.admins u.email = false →
      activeMember ref.subscribers u.email = true →
      getUserRole user ref = "subscriber") ∧
    (∀ u, user = some u → u.email ≠ PRIMARY_OWNER_EMAIL →
      activeMember ref.partners u.email = false →
      activeMember ref.admins u.email = false →
      activeMember ref.subscribers u.email = false →
      getUserRole user ref = "user") := by
  cases user with
  | none => simp [getUserRole]
  | some u =>
    by_cases h1 : u.email = PRIMARY_OWNER_EMAIL
    · simp [getUserRole, h1]
    · by_cases h2 : activeMember ref.partners u.email
      · simp [getUserRole, h1, h2]
      · by_cases h3 : activeMember ref.admins u.email
        · simp [getUserRole, h1, h2, h3]
        · by_cases h4 : activeMember ref.subscribers u.email
          · simp [getUserRole, h1, h2, h3, h4]
          · simp [getUserRole, h1, h2, h3, h4]

def C6wref : RefDB :=
  { partners := [⟨"p@x.com", none⟩]
    admins := [⟨"p@x.com", none⟩]
    subscribers := [] }

/-- Witness for the amended C6: a non-owner email in both `Partners`
and `Admins` resolves to `partner`, never `admin`. -/
theorem C6_role_priority_amended_witness :
    getUserRole (some ⟨"p@x.com"⟩) C6wref = "partner" ∧
    getUserRole (some ⟨"p@x.com"⟩) C6wref ≠ "admin" := by
  constructor
  · exact (C6_role_priority_amended (some ⟨"p@x.com"⟩) C6wref).2.2.2.1
      ⟨"p@x.com"⟩ rfl (by decide) (by decide)
  · exact (C6_role_priority_amended (some ⟨"p@x.com"⟩) C6wref).2.2.2.2.1
      ⟨"p@x.com"⟩ rfl (by decide)

def C7order : Order := ⟨[], 0, 0, 150, 150, "pending"⟩

/-- Counterexample to C7: the valid status set of `update_order_status`
(`server.py`) also contains `"complete"`, which is outside the claimed
six-element set yet accepted; the v1 handler
(`endpoints/orders.py`) additionally performs no status validation at
all. -/
theorem C7_status_update_counterexample :
    updateOrderStatus C7order "complete" =
      .ok { C7order with status := "complete" } ∧
    "complete" ∉ ["pending", "preparing", "shipped", "out_for_delivery",
      "delivered", "cancelled"] ∧
    updateOrderStatusV1 "admin" C7order "not-even-a-status" =
      .ok { C7order with status := "not-even-a-status" } := by
  refine ⟨?_, by decide, ?_⟩
  · rw [updateOrderStatus, if_pos (by decide)]
  · rw [updateOrderStatusV1, if_pos (by decide)]

/-- C7 as amended: the legacy handler accepts exactly the seven-element
set `validStatuses` (the claimed six plus `"complete"`) from any prior
status and rejects anything else with a validation error, leaving the
order unchanged; the v1 handler accepts any status string from any
prior status for an admin-role caller. -/
theorem C7_status_update_amended (o : Order) (s : String) :
    (s ∈ validStatuses → updateOrderStatus o s = .ok { o with status := s }) ∧
    (s ∉ validStatuses → updateOrderStatus o s = .error "Invalid status") ∧
    validStatuses = ["pending", "preparing", "shipped", "out_for_delivery",
      "delivered", "cancelled", "complete"] ∧
    (∀ role, role ∈ ["owner", "partner", "admin"] →
      updateOrderStatusV1 role o s = .ok { o with status := s }) ∧
    (∀ role, role ∉ ["owner", "partner", "admin"] →
      updateOrderStatusV1 role o s = .error "Access denied") := by
  refine ⟨fun h => by rw [updateOrderStatus, if_pos h],
          fun h => by rw [updateOrderStatus, if_neg h], rfl, ?_, ?_⟩
  · intro role hrole
    rw [updateOrderStatusV1, if_pos hrole]
  · intro role hrole
    rw [updateOrderStatusV1, if_neg hrole]

/-- Witness for the amended C7: a six-set status is accepted, an
unknown status is rejected. -/
theorem C7_status_update_amended_witness :
    updateOrderStatus C7order "delivered" =
      .ok { C7order with status := "delivered" } ∧
    updateOrderStatus C7order "garbage" = .error "Invalid status" :=
  ⟨(C7_status_update_amended C7order "delivered").1 (by decide),
   (C7_status_update_amended C7order "garbage").2.1 (by decide)⟩

lemma voidLine_idem (gid : Nat) (it : CartItem) :
    voidLine gid (voidLine gid it) = voidLine gid it := by
  by_cases hb : (it.bundle_group_id == some gid) = true
  · have h1 : voidLine gid it =
        { it with
          final_unit_price :=
            match it.original_unit_price with
            | some o => some o
            | none => it.final_unit_price
          discount_details := noDiscount
          bundle_group_id := none } := by
      rw [voidLine, if_pos hb]
    rw [h1, voidLine, if_neg (by simp)]
  · have h1 : voidLine gid it = it := by rw [voidLine, if_neg hb]
    simp only [h1]

lemma voidBundleItems_idem (items : List CartItem) (gid : Nat) :
    voidBundleItems (voidBundleItems items gid) gid =
      voidBundleItems items gid := by
  unfold voidBundleItems
  rw [List.map_map]
  induction items with
  | nil => rfl
  | cons it rest ih =>
    simp only [List.map_cons, Function.comp_apply, voidLine_idem, ih]

lemma voidBundleItems_no_match (items : List CartItem) (gid : Nat)
    (h : ∀ it ∈ items, it.bundle_group_id ≠ some gid) :
    voidBundleItems items gid = items := by
  induction items with
  | nil => rfl
  | cons it rest ih =>
    have hb : (it.bundle_group_id == some gid) = false := by
      simpa using h it (by simp)
    simp only [voidBundleItems, List.map_cons] at ih ⊢
    rw [voidLine, if_neg (by simp [hb]), ih fun x hx => h x (by simp [hx])]

/-- C8: `void_bundle_discount` is idempotent — voiding the same group
twice equals voiding it once; a missing cart or a group with no
matching line leaves the cart untouched (and raises no error, the
operation is total); and per line, a matching line gets
`final_unit_price` restored from `original_unit_price`, its discount
metadata cleared and its group membership removed, while every other
line is untouched. -/
theorem C8_void_bundle_idempotent (db : DB) (gid : Nat) :
    voidBundle (voidBundle db gid) gid = voidBundle db gid ∧
    (db.cart = none → voidBundle db gid = db) ∧
    (∀ c, db.cart = some c →
      (∀ it ∈ c.items, it.bundle_group_id ≠ some gid) →
      voidBundle db gid = db) ∧
    (∀ c, db.cart = some c →
      List.Forall₂ (fun it it' =>
        (it.bundle_group_id = some gid →
          it'.final_unit_price = (match it.original_unit_price with
            | some o => some o
            | none => it.final_unit_price) ∧
          it'.discount_details = noDiscount ∧
          it'.bundle_group_id = none) ∧
        (it.bundle_group_id ≠ some gid → it' = it))
        c.items (voidBundleItems c.items gid)) := by
  refine ⟨?_, ?_, ?_, ?_⟩
  · cases hc : db.cart with
    | none => simp [voidBundle, hc]
    | some c => simp [voidBundle, hc, voidBundleItems_idem]
  · intro h; simp [voidBundle, h]
  · intro c hc hnone
    simp only [voidBundle, hc, voidBundleItems_no_match c.items gid hnone]
    rw [← hc]
  · intro c hc
    clear hc
    induction c.items with
    | nil => exact List.Forall₂.nil
    | cons it rest ih =>
      refine List.Forall₂.cons ?_ ih
      by_cases hb : (it.bundle_group_id == some gid) = true
      · constructor
        · intro _
          rw [voidLine, if_pos hb]
          exact ⟨rfl, rfl, rfl⟩
        · intro hne
          exact absurd (by simpa using hb) hne
      · constructor
        · intro heq
          exact absurd (by simpa using heq :
            (it.bundle_group_id == some gid) = true) hb
        · intro _
          rw [voidLine, if_neg hb]

def C8wdb : DB :=
  { products := []
    cart := some ⟨[⟨1, 1, some 50, some 40,
      ⟨"bundle", 20, some 3⟩, some 5⟩,
      ⟨2, 1, some 10, some 10, noDiscount, none⟩]⟩
    orders := [] }

def C8wdb2 : DB :=
  { products := []
    cart := some ⟨[⟨2, 1, some 10, some 10, noDiscount, none⟩]⟩
    orders := [] }

/-- Witness for C8: a double void of group 5 equals a single void, and
voiding group 5 on a cart with no group-5 line is a no-op. -/
theorem C8_void_bundle_idempotent_witness :
    voidBundle (voidBundle C8wdb 5) 5 = voidBundle C8wdb 5 ∧
    voidBundle C8wdb2 5 = C8wdb2 :=
  ⟨(C8_void_bundle_idempotent C8wdb 5).1,
   (C8_void_bundle_idempotent C8wdb2 5).2.2.1 _ rfl (by decide)⟩

/-! ## Pagination: order theory of the compound sort key -/

lemma rowLt_iff {a b : Row} : rowLt a b = true ↔
    (a.created_at < b.created_at ∨
      (a.created_at = b.created_at ∧ a.rid < b.rid)) := by
  simp [rowLt, Bool.or_eq_true, Bool.and_eq_true, decide_eq_true_iff, beq_iff_eq]

lemma rowLt_irrefl (a : Row) : rowLt a a = false := by
  simp [rowLt]

lemma rowLt_asymm {a b : Row} (h : rowLt a b = true) : rowLt b a = false := by
  rw [rowLt_iff] at h
  by_contra hc
  have h2 : rowLt b a = true := by
    cases hb : rowLt b a
    · exact absurd hb hc
    · rfl
  rw [rowLt_iff] at h2
  omega

lemma rowLt_trans {a b c : Row} (h1 : rowLt a b = true)
    (h2 : rowLt b c = true) : rowLt a c = true := by
  rw [rowLt_iff] at h1 h2 ⊢
  omega

lemma rowLt_total {a b : Row} (h1 : rowLt a b = false)
    (h2 : rowLt b a = false) : a = b := by
  have h1' : ¬ rowLt a b = true := by simp [h1]
  have h2' : ¬ rowLt b a = true := by simp [h2]
  rw [rowLt_iff] at h1' h2'
  have hc : a.created_at = b.created_at := by omega
  have hr : a.rid = b.rid := by omega
  cases a; cases b
  simp_all

lemma not_rowLt_of_ne {a b : Row} (hne : a ≠ b) (h : rowLt a b = false) :
    rowLt b a = true := by
  cases hb : rowLt b a
  · exact absurd (rowLt_total h hb) hne
  · rfl

instance : IsTotal Row rowDescLE :=
  ⟨fun a b => by
    unfold rowDescLE
    cases hab : rowLt a b
    · left; simp
    · right; simp [rowLt_asymm hab]⟩

instance : IsTrans Row rowDescLE :=
  ⟨fun a b c hab hbc => by
    unfold rowDescLE at *
    intro hac
    cases hba : rowLt b a with
    | false =>
      have hab' : rowLt a b = false := by
        cases h : rowLt a b
        · rfl
        · exact absurd h hab
      have heq : a = b := rowLt_total hab' hba
      exact hbc (heq ▸ hac)
    | true => exact hbc (rowLt_trans hba hac)⟩

instance : IsAntisymm Row rowDescLE :=
  ⟨fun a b hab hba => by
    unfold rowDescLE at *
    have h1 : rowLt b a = false := by
      cases h : rowLt b a
      · rfl
      · exact absurd h hba
    have h2 : rowLt a b = false := by
      cases h : rowLt a b
      · rfl
      · exact absurd h hab
    exact (rowLt_total h1 h2).symm⟩

instance : IsTotal Row rowAscLE := ⟨fun a b => total_of rowDescLE b a⟩

instance : IsTrans Row rowAscLE :=
  ⟨fun a b c hab hbc => by
    unfold rowAscLE at *
    intro hca
    cases hcb : rowLt c b with
    | true => exact hbc hcb
    | false =>
      cases hbc2 : rowLt b c with
      | false =>
        have heq : b = c := rowLt_total hbc2 hcb
        exact hab (heq.symm ▸ hca)
      | true => exact hab (rowLt_trans hbc2 hca)⟩

instance : IsAntisymm Row rowAscLE :=
  ⟨fun a b hab hba => antisymm_of rowDescLE hba hab⟩

lemma sortDesc_sorted (rows : List Row) :
    List.Sorted rowDescLE (sortDesc rows) :=
  List.sorted_insertionSort rowDescLE rows

lemma sortDesc_perm (rows : List Row) : (sortDesc rows).Perm rows :=
  List.perm_insertionSort rowDescLE rows

lemma sortAsc_sorted (rows : List Row) :
    List.Sorted rowAscLE (sortAsc rows) :=
  List.sorted_insertionSort rowAscLE rows

lemma sortAsc_perm (rows : List Row) : (sortAsc rows).Perm rows :=
  List.perm_insertionSort rowAscLE rows

/-- With unique ids the descending sort is strictly descending in the
compound key. -/
lemma sortDesc_pairwise (rows : List Row)
    (h : (rows.map Row.rid).Nodup) :
    List.Pairwise (fun a b => rowLt b a = true) (sortDesc rows) := by
  have hmap : ((sortDesc rows).map Row.rid).Nodup :=
    (((sortDesc_perm rows).map Row.rid).nodup_iff).mpr h
  have hne : List.Pairwise (fun a b : Row => a.rid ≠ b.rid) (sortDesc rows) := by
    rw [List.Nodup, List.pairwise_map] at hmap
    exact hmap
  have hs : List.Pairwise rowDescLE (sortDesc rows) := sortDesc_sorted rows
  refine (hs.and hne).imp ?_
  rintro a b ⟨hab, hne'⟩
  unfold rowDescLE at hab
  refine not_rowLt_of_ne (fun he => hne' (by rw [he])) ?_
  cases h2 : rowLt a b
  · rfl
  · exact absurd h2 hab

/-- With unique ids the ascending sort is strictly ascending in the
compound key. -/
lemma sortAsc_pairwise (rows : List Row)
    (h : (rows.map Row.rid).Nodup) :
    List.Pairwise (fun a b => rowLt a b = true) (sortAsc rows) := by
  have hmap : ((sortAsc rows).map Row.rid).Nodup :=
    (((sortAsc_perm rows).map Row.rid).nodup_iff).mpr h
  have hne : List.Pairwise (fun a b : Row => a.rid ≠ b.rid) (sortAsc rows) := by
    rw [List.Nodup, List.pairwise_map] at hmap
    exact hmap
  have hs : List.Pairwise rowAscLE (sortAsc rows) := sortAsc_sorted rows
  refine (hs.and hne).imp ?_
  rintro a b ⟨hab, hne'⟩
  unfold rowAscLE at hab
  have hba : rowLt b a = false := by
    cases h2 : rowLt b a
    · rfl
    · exact absurd h2 hab
  cases h2 : rowLt a b
  · exact absurd (rowLt_total h2 hba) (fun he => hne' (by rw [he]))
  · rfl

/-- Resolving a cursor id over a collection with unique ids finds the
boundary row itself. -/
lemma find_rid {rows : List Row} (h : (rows.map Row.rid).Nodup) {b : Row}
    (hb : b ∈ rows) : rows.find? (fun r => r.rid == b.rid) = some b := by
  induction rows with
  | nil => cases hb
  | cons a rest ih =>
    rw [List.map_cons, List.nodup_cons] at h
    cases List.mem_cons.mp hb with
    | inl heq =>
      subst heq
      simp [List.find?_cons]
    | inr hmem =>
      have hne : (a.rid == b.rid) = false := by
        simp only [beq_eq_false_iff_ne, ne_eq]
        intro he
        exact h.1 (he ▸ List.mem_map_of_mem Row.rid hmem)
      simp only [List.find?_cons, hne]
      exact ih h.2 hmem

/-- Sorting commutes with the boundary filter. -/
lemma filter_sortDesc (rows : List Row) (p : Row → Bool) :
    (sortDesc rows).filter p = sortDesc (rows.filter p) := by
  exact List.eq_of_perm_of_sorted
    (((sortDesc_perm rows).filter p).trans (sortDesc_perm (rows.filter p)).symm)
    ((sortDesc_sorted rows).sublist (List.filter_sublist _))
    (sortDesc_sorted _)

/-- The ascending fetch used for `prev` is the reverse of the
descending one. -/
lemma sortAsc_eq_reverse_sortDesc (rows : List Row) :
    sortAsc rows = (sortDesc rows).reverse := by
  refine List.eq_of_perm_of_sorted
    ((sortAsc_perm rows).trans
      ((List.reverse_perm (sortDesc rows)).trans (sortDesc_perm rows)).symm)
    (sortAsc_sorted rows) ?_
  rw [List.Sorted, List.pairwise_reverse]
  exact sortDesc_sorted rows

lemma drop_get_cons {L : List Row} {i : Nat} (hi : i < L.length) :
    L.drop i = L.get ⟨i, hi⟩ :: L.drop (i + 1) := by
  rw [List.drop_eq_getElem_cons hi]
  simp [List.get_eq_getElem]

/-- In a strictly descending list, everything before position `i` is
strictly above the element there, everything after strictly below. -/
lemma strict_split {L : List Row}
    (hs : List.Pairwise (fun a b => rowLt b a = true) L)
    {i : Nat} (hi : i < L.length) :
    (∀ x ∈ L.take i, rowLt (L.get ⟨i, hi⟩) x = true) ∧
    (∀ x ∈ L.drop (i + 1), rowLt x (L.get ⟨i, hi⟩) = true) := by
  have hdecomp : L = L.take i ++ (L.get ⟨i, hi⟩ :: L.drop (i + 1)) := by
    rw [← drop_get_cons hi, List.take_append_drop]
  rw [hdecomp, List.pairwise_append] at hs
  constructor
  · intro x hx
    exact hs.2.2 x hx _ (List.mem_cons_self _ _)
  · intro x hx
    exact (List.pairwise_cons.mp hs.2.1).1 x hx

lemma filter_lt_of_split {l₁ l₂ : List Row} {b : Row}
    (h1 : ∀ x ∈ l₁, rowLt b x = true) (h2 : ∀ x ∈ l₂, rowLt x b = true) :
    (l₁ ++ b :: l₂).filter (fun r => rowLt r b) = l₂ := by
  rw [List.filter_append, List.filter_cons]
  have ht : l₁.filter (fun r => rowLt r b) = [] := by
    rw [List.filter_eq_nil_iff]
    intro x hx
    simp [rowLt_asymm (h1 x hx)]
  have hd : l₂.filter (fun r => rowLt r b) = l₂ :=
    List.filter_eq_self.mpr fun x hx => h2 x hx
  rw [ht, hd, rowLt_irrefl]
  simp

lemma filter_gt_of_split {l₁ l₂ : List Row} {b : Row}
    (h1 : ∀ x ∈ l₁, rowLt b x = true) (h2 : ∀ x ∈ l₂, rowLt x b = true) :
    (l₁ ++ b :: l₂).filter (fun r => rowLt b r) = l₁ := by
  rw [List.filter_append, List.filter_cons]
  have ht : l₁.filter (fun r => rowLt b r) = l₁ :=
    List.filter_eq_self.mpr fun x hx => h1 x hx
  have hd : l₂.filter (fun r => rowLt b r) = [] := by
    rw [List.filter_eq_nil_iff]
    intro x hx
    simp [rowLt_asymm (h2 x hx)]
  rw [ht, hd, rowLt_irrefl]
  simp

/-- The `next`-direction boundary filter of a strictly descending list
keeps exactly the strict suffix. -/
lemma filter_lt_boundary {L : List Row}
    (hs : List.Pairwise (fun a b => rowLt b a = true) L)
    {i : Nat} (hi : i < L.length) :
    L.filter (fun r => rowLt r (L.get ⟨i, hi⟩)) = L.drop (i + 1) := by
  obtain ⟨h1, h2⟩ := strict_split hs hi
  have hdecomp : L = L.take i ++ (L.get ⟨i, hi⟩ :: L.drop (i + 1)) := by
    rw [← drop_get_cons hi, List.take_append_drop]
  have h := filter_lt_of_split h1 h2
  rw [← hdecomp] at h
  exact h

/-- The `prev`-direction boundary filter of a strictly descending list
keeps exactly the strict prefix. -/
lemma filter_gt_boundary {L : List Row}
    (hs : List.Pairwise (fun a b => rowLt b a = true) L)
    {i : Nat} (hi : i < L.length) :
    L.filter (fun r => rowLt (L.get ⟨i, hi⟩) r) = L.take i := by
  obtain ⟨h1, h2⟩ := strict_split hs hi
  have hdecomp : L = L.take i ++ (L.get ⟨i, hi⟩ :: L.drop (i + 1)) := by
    rw [← drop_get_cons hi, List.take_append_drop]
  have h := filter_gt_of_split h1 h2
  rw [← hdecomp] at h
  exact h

/-- The over-fetch-by-one/trim dance returns exactly the first `k` of
the sorted result. -/
lemma fetched_trim (M : List Row) (k : Nat) :
    (if decide (k < M.length) = true then (M.take (k + 1)).take k
     else M.take (k + 1)) = M.take k := by
  by_cases h : k < M.length
  · rw [if_pos (by simpa using h)]
    rw [List.take_take, show min k (k + 1) = k by omega]
  · rw [if_neg (by simpa using h)]
    rw [List.take_of_length_le (by omega), List.take_of_length_le (by omega)]

lemma has_more_eq (M : List Row) (k : Nat) :
    decide (k < (M.take (k + 1)).length) = decide (k < M.length) := by
  apply decide_eq_decide.mpr
  simp only [List.length_take]
  omega

/-- The first page (`cursor = None`, direction `next`). -/
lemma listPage_next_none (rows : List Row) (k : Nat) :
    (listPage rows none "next" k).items = (sortDesc rows).take k ∧
    (listPage rows none "next" k).next_cursor =
      (if k < (sortDesc rows).length
       then ((sortDesc rows).take k).getLast?.map Row.rid
       else none) := by
  have hbeq : (("next" : String) == "next") = true := by decide
  simp only [listPage, hbeq, if_true, has_more_eq, fetched_trim]
  refine ⟨trivial, ?_⟩
  by_cases h : k < (sortDesc rows).length
  · rw [if_pos h, if_pos (by simpa using h)]
  · rw [if_neg h, if_neg (by simpa using h)]

/-- A `next` page at the boundary sitting at position `i` of the full
descending order: it returns the next `k` rows after position `i`, and
its `next_cursor` points at the last of them when more remain. -/
lemma listPage_next_at (rows : List Row) (h : (rows.map Row.rid).Nodup)
    {i : Nat} (hi : i < (sortDesc rows).length) (k : Nat) :
    (listPage rows (some ((sortDesc rows).get ⟨i, hi⟩).rid) "next" k).items =
      ((sortDesc rows).drop (i + 1)).take k ∧
    (listPage rows (some ((sortDesc rows).get ⟨i, hi⟩).rid) "next" k).next_cursor =
      (if k < ((sortDesc rows).drop (i + 1)).length
       then (((sortDesc rows).drop (i + 1)).take k).getLast?.map Row.rid
       else none) := by
  have hmem : (sortDesc rows).get ⟨i, hi⟩ ∈ rows :=
    (sortDesc_perm rows).subset (List.get_mem _ _ _)
  have hfind := find_rid h hmem
  have hsorted : sortDesc (rows.filter
      (fun r => rowLt r ((sortDesc rows).get ⟨i, hi⟩))) =
      (sortDesc rows).drop (i + 1) := by
    rw [← filter_sortDesc]
    exact filter_lt_boundary (sortDesc_pairwise rows h) hi
  have hbeq : (("next" : String) == "next") = true := by decide
  simp only [listPage, hfind, hbeq, if_true, hsorted, has_more_eq, fetched_trim]
  refine ⟨trivial, ?_⟩
  by_cases hm : k < ((sortDesc rows).drop (i + 1)).length
  · rw [if_pos hm, if_pos (by simpa using hm)]
  · rw [if_neg hm, if_neg (by simpa using hm)]

lemma getLast_take_eq {D : List Row} {k : Nat} (hk : 1 ≤ k)
    (hlen : k ≤ D.length) :
    (D.take k).getLast? = some (D.get ⟨k - 1, by omega⟩) := by
  rw [List.getLast?_eq_getElem?]
  have hlen2 : (D.take k).length = k := by
    simp only [List.length_take]; omega
  rw [hlen2, List.getElem?_take, if_pos (by omega : k - 1 < k),
    List.getElem?_eq_getElem (by omega : k - 1 < D.length)]
  simp [List.get_eq_getElem]

/-- Following `next_cursor` from the boundary at position `i` of the
full descending order collects exactly the remaining suffix. -/
lemma nextChain_at (rows : List Row) (h : (rows.map Row.rid).Nodup)
    (k : Nat) (hk : 1 ≤ k) :
    ∀ (fuel i : Nat) (hi : i < (sortDesc rows).length),
      (sortDesc rows).length - i ≤ fuel →
      nextChain rows (some ((sortDesc rows).get ⟨i, hi⟩).rid) k fuel =
        (sortDesc rows).drop (i + 1) := by
  intro fuel
  induction fuel with
  | zero => intro i hi hle; omega
  | succ fuel ih =>
    intro i hi hle
    obtain ⟨hitems, hcursor⟩ := listPage_next_at rows h hi k
    by_cases hmore : k < ((sortDesc rows).drop (i + 1)).length
    · rw [if_pos hmore] at hcursor
      rw [getLast_take_eq hk (le_of_lt hmore)] at hcursor
      have hik : i + k < (sortDesc rows).length := by
        simp only [List.length_drop] at hmore; omega
      have hgd : ((sortDesc rows).drop (i + 1)).get
          ⟨k - 1, by simp only [List.length_drop]; omega⟩ =
          (sortDesc rows).get ⟨i + k, hik⟩ := by
        simp only [List.get_eq_getElem, List.getElem_drop]
        congr 1
        omega
      rw [hgd] at hcursor
      simp only [nextChain, hcursor, hitems, Option.map_some']
      rw [ih (i + k) hik (by omega)]
      have hdd : (sortDesc rows).drop (i + k + 1) =
          ((sortDesc rows).drop (i + 1)).drop k := by
        rw [List.drop_drop]
        congr 1
        omega
      rw [hdd, List.take_append_drop]
    · rw [if_neg hmore] at hcursor
      simp only [nextChain, hcursor, hitems]
      rw [List.take_of_length_le (by omega)]

/-- Forward traversal from the first page visits exactly the full
descending order of the collection. -/
lemma nextChain_all (rows : List Row) (h : (rows.map Row.rid).Nodup)
    (k : Nat) (hk : 1 ≤ k) (fuel : Nat) (hfuel : rows.length + 1 ≤ fuel) :
    nextChain rows none k fuel = sortDesc rows := by
  obtain ⟨hitems, hcursor⟩ := listPage_next_none rows k
  have hlen : (sortDesc rows).length = rows.length := (sortDesc_perm rows).length_eq
  cases fuel with
  | zero => omega
  | succ fuel =>
    by_cases hmore : k < (sortDesc rows).length
    · rw [if_pos hmore] at hcursor
      rw [getLast_take_eq hk (le_of_lt hmore)] at hcursor
      simp only [nextChain, hcursor, hitems, Option.map_some']
      rw [nextChain_at rows h k hk fuel (k - 1) (by omega) (by omega)]
      rw [show k - 1 + 1 = k by omega]
      exact List.take_append_drop k _
    · rw [if_neg hmore] at hcursor
      simp only [nextChain, hcursor, hitems]
      rw [List.take_of_length_le (by omega)]

/-- Reversed ascending fetch, trim and re-reversal return the last `k`
elements of the prefix, in descending order. -/
lemma prev_assembly (T : List Row) (k : Nat) :
    ((if decide (k < ((T.reverse).take (k + 1)).length) = true
      then ((T.reverse).take (k + 1)).take k
      else (T.reverse).take (k + 1)).reverse) = T.drop (T.length - k) := by
  have h1 : decide (k < ((T.reverse).take (k + 1)).length) =
      decide (k < (T.reverse).length) := has_more_eq T.reverse k
  rw [h1, fetched_trim, List.take_reverse, List.reverse_reverse]

/-- A `prev` page at the boundary sitting at position `i` of the full
descending order: it returns the `k` rows just before position `i`
(in descending order), and `prev_cursor` points at the first of them. -/
lemma listPage_prev_at (rows : List Row) (h : (rows.map Row.rid).Nodup)
    {i : Nat} (hi : i < (sortDesc rows).length) (k : Nat) :
    (listPage rows (some ((sortDesc rows).get ⟨i, hi⟩).rid) "prev" k).items =
      ((sortDesc rows).take i).drop (i - k) ∧
    (listPage rows (some ((sortDesc rows).get ⟨i, hi⟩).rid) "prev" k).prev_cursor =
      ((((sortDesc rows).take i).drop (i - k)).head?).map Row.rid := by
  have hmem : (sortDesc rows).get ⟨i, hi⟩ ∈ rows :=
    (sortDesc_perm rows).subset (List.get_mem _ _ _)
  have hfind := find_rid h hmem
  have hsorted : sortAsc (rows.filter
      (fun r => rowLt ((sortDesc rows).get ⟨i, hi⟩) r)) =
      ((sortDesc rows).take i).reverse := by
    rw [sortAsc_eq_reverse_sortDesc, ← filter_sortDesc,
      filter_gt_boundary (sortDesc_pairwise rows h) hi]
  have hbeq : (("prev" : String) == "next") = false := by decide
  have hTlen : ((sortDesc rows).take i).length = i := by
    simp only [List.length_take]
    omega
  simp only [listPage, hfind, hbeq, Bool.false_eq_true, if_false, hsorted,
    Option.isSome_some, if_true, prev_assembly, hTlen]
  exact ⟨trivial, trivial⟩

/-- Following `prev_cursor` from the boundary at position `i` collects
exactly the prefix before position `i`. -/
lemma prevChain_at (rows : List Row) (h : (rows.map Row.rid).Nodup)
    (k : Nat) (hk : 1 ≤ k) :
    ∀ (fuel i : Nat) (hi : i < (sortDesc rows).length), i + 1 ≤ fuel →
      prevChain rows ((sortDesc rows).get ⟨i, hi⟩).rid k fuel =
        (sortDesc rows).take i := by
  intro fuel
  induction fuel with
  | zero => intro i hi hle; omega
  | succ fuel ih =>
    intro i hi hle
    obtain ⟨hitems, hcursor⟩ := listPage_prev_at rows h hi k
    by_cases hz : i = 0
    · subst hz
      simp only [List.take_zero, List.drop_nil] at hitems hcursor
      simp only [List.head?_nil, Option.map_none'] at hcursor
      simp only [prevChain, hcursor, hitems, List.take_zero]
    · have hhead : ((((sortDesc rows).take i).drop (i - k)).head?) =
          some ((sortDesc rows).get ⟨i - k, by omega⟩) := by
        rw [List.head?_drop, List.getElem?_take, if_pos (by omega : i - k < i),
          List.getElem?_eq_getElem (by omega : i - k < (sortDesc rows).length)]
        simp [List.get_eq_getElem]
      rw [hhead] at hcursor
      simp only [prevChain, hcursor, Option.map_some', hitems]
      rw [ih (i - k) (by omega) (by omega)]
      have htt : (sortDesc rows).take (i - k) =
          ((sortDesc rows).take i).take (i - k) := by
        rw [List.take_take, show min (i - k) i = i - k by omega]
      rw [htt, List.take_append_drop]

/-- Every returned page, in either direction, is strictly descending in
the compound key — rows with equal `created_at` always appear with the
larger id first. -/
lemma listPage_tiebreak (rows : List Row) (h : (rows.map Row.rid).Nodup)
    (cursor : Option Nat) (direction : String) (k : Nat) :
    ((listPage rows cursor direction k).items).Pairwise
      (fun a b => rowLt b a = true) := by
  have key : ∀ F : List Row, (F.map Row.rid).Nodup →
      (if direction == "next" then
        (if decide (k < ((if direction == "next" then sortDesc F
            else sortAsc F).take (k + 1)).length) = true
         then ((if direction == "next" then sortDesc F
            else sortAsc F).take (k + 1)).take k
         else (if direction == "next" then sortDesc F
            else sortAsc F).take (k + 1))
       else
        (if decide (k < ((if direction == "next" then sortDesc F
            else sortAsc F).take (k + 1)).length) = true
         then ((if direction == "next" then sortDesc F
            else sortAsc F).take (k + 1)).take k
         else (if direction == "next" then sortDesc F
            else sortAsc F).take (k + 1)).reverse).Pairwise
        (fun a b => rowLt b a = true) := by
    intro F hF
    by_cases hdir : (direction == "next") = true
    · simp only [hdir, if_true]
      split
      · exact (sortDesc_pairwise F hF).sublist
          ((List.take_sublist _ _).trans (List.take_sublist _ _))
      · exact (sortDesc_pairwise F hF).sublist (List.take_sublist _ _)
    · simp only [hdir, Bool.false_eq_true, if_false]
      rw [List.pairwise_reverse]
      split
      · exact (sortAsc_pairwise F hF).sublist
          ((List.take_sublist _ _).trans (List.take_sublist _ _))
      · exact (sortAsc_pairwise F hF).sublist (List.take_sublist _ _)
  have hnodup_filter : ∀ p : Row → Bool,
      ((rows.filter p).map Row.rid).Nodup := by
    intro p
    exact h.sublist ((List.filter_sublist rows).map Row.rid)
  cases cursor with
  | none =>
    simp only [listPage]
    exact key rows h
  | some c =>
    cases hfind : rows.find? (fun r => r.rid == c) with
    | none =>
      simp only [listPage, hfind]
      exact key rows h
    | some b =>
      by_cases hdir : (direction == "next") = true
      · simp only [listPage, hfind, hdir, if_true]
        have := key (rows.filter (fun r => rowLt r b))
          (hnodup_filter (fun r => rowLt r b))
        simpa only [hdir, if_true] using this
      · simp only [listPage, hfind, hdir, Bool.false_eq_true, if_false]
        have := key (rows.filter (fun r => rowLt b r))
          (hnodup_filter (fun r => rowLt b r))
        simpa only [hdir, Bool.false_eq_true, if_false] using this

/-- C5: over any stored collection with unique ids — in particular one
with strictly increasing `created_at`, but no timestamp hypothesis is
needed, so the statement also covers collections with tied
`created_at` — forward paging with any page size `k ≥ 1` (following
each response's `next_cursor` until it is null) visits all rows
exactly once: the concatenated pages are exactly the full
`(created_at DESC, id DESC)` order, a permutation of the stored rows
with no duplicates; `prev` paging from the boundary at any position
reconstructs exactly the sequence before that boundary; and every
returned page orders rows with identical `created_at` by id descending.
(`fuel` bounds the number of requests; `rows.length + 1` is always
enough.) -/
theorem C5_pagination_stability (rows : List Row) (k fuel : Nat)
    (hids : (rows.map Row.rid).Nodup)
    (hk : 1 ≤ k) (hfuel : rows.length + 1 ≤ fuel) :
    nextChain rows none k fuel = sortDesc rows ∧
    (nextChain rows none k fuel).Perm rows ∧
    (nextChain rows none k fuel).Nodup ∧
    (∀ i (hi : i < (sortDesc rows).length),
      prevChain rows ((sortDesc rows).get ⟨i, hi⟩).rid k fuel =
        (sortDesc rows).take i) ∧
    (∀ cursor direction limit,
      ((listPage rows cursor direction limit).items).Pairwise
        (fun a b => b.created_at < a.created_at ∨
          (b.created_at = a.created_at ∧ b.rid < a.rid))) := by
  have hlen : (sortDesc rows).length = rows.length :=
    (sortDesc_perm rows).length_eq
  have hchain := nextChain_all rows hids k hk fuel hfuel
  refine ⟨hchain, ?_, ?_, ?_, ?_⟩
  · rw [hchain]; exact sortDesc_perm rows
  · rw [hchain]
    exact ((sortDesc_perm rows).nodup_iff).mpr (List.Nodup.of_map Row.rid hids)
  · intro i hi
    exact prevChain_at rows hids k hk fuel i hi (by omega)
  · intro cursor direction limit
    exact (listPage_tiebreak rows hids cursor direction limit).imp
      (fun hab => rowLt_iff.mp hab)

def C5rows : List Row := [⟨1, 10⟩, ⟨2, 20⟩, ⟨3, 20⟩]

/-- Witness for C5 on three rows, two of which share `created_at = 20`,
with page size 2: the forward chain returns the full descending order,
a backward chain from the oldest row reconstructs the two rows before
it, and the first page orders the tied rows by id descending. -/
theorem C5_pagination_stability_witness :
    nextChain C5rows none 2 4 = sortDesc C5rows ∧
    prevChain C5rows ((sortDesc C5rows).get ⟨2, by decide⟩).rid 2 4 =
      (sortDesc C5rows).take 2 ∧
    ((listPage C5rows none "next" 2).items).Pairwise
      (fun a b => b.created_at < a.created_at ∨
        (b.created_at = a.created_at ∧ b.rid < a.rid)) := by
  have h := C5_pagination_stability C5rows 2 4 (by decide) (by decide)
    (by decide)
  exact ⟨h.1, h.2.2.2.1 2 (by decide), h.2.2.2.2 none "next" 2⟩

end Shop
